import Mathlib

/-!
# Verification of the dev-viewer JSON subsystem

A shallow embedding, in Lean 4, of the JSON parse / repair / path-tracking
core of the dev-viewer repository (`src/json-parser.js`, `src/json-repair.js`,
`src/json-visualizer.js` and the Code Helper), together with theorems settling
the specification claims about it.

Modelling conventions:
* JavaScript values produced by `JSON.parse` are the inductive `JsonVal`;
  numbers are modelled exactly as rationals (the claims only involve small
  integers, so float64 rounding is irrelevant).
* Path segments (`Seg`) are object keys (strings) or array indices (naturals),
  as in the repository's path arrays.
* The host `JSON.parse` is modelled by `jsonParse`, a strict RFC&#8203;8259
  recursive-descent parser that reports a structured error (`JsError`) carrying
  the character offset (when the engine's message contains "position N") and a
  classification of the message text, mirroring the message classes the repair
  engine's regexes distinguish: "Expected ':' after property name",
  "Expected ',' or '\x7d' after property value", "Expected ',' or ']' after
  array element", "Expected double-quoted property name", "Unexpected token c",
  and positionless "Unexpected end of JSON input".
* JavaScript member access `base[seg]` is modelled by `jsMember` (for a defined,
  non-null base) and undefined results are `Option.none`; accessing a property
  of `null`/`undefined` throws, which the model renders as `Except.error ()`.
* Fallible JS string indexing `str[pos]` is `List.get?` on the character list.
-/

namespace DevViewer

/-- A parsed JSON value (the `JsonValue` of the data model): the result of a
successful `JSON.parse`.  Object fields keep insertion order. -/
inductive JsonVal where
  | null
  | bool (b : Bool)
  | num (q : ℚ)
  | str (s : String)
  | arr (elems : List JsonVal)
  | obj (fields : List (String × JsonVal))
deriving Repr, Inhabited

mutual
/-- Boolean structural equality on values (the derive handler cannot treat the
nested `List` occurrences, so it is spelled out). -/
def beqJ : JsonVal → JsonVal → Bool
  | .null, .null => true
  | .bool a, .bool b => a == b
  | .num a, .num b => a == b
  | .str a, .str b => a == b
  | .arr xs, .arr ys => beqArrJ xs ys
  | .obj xs, .obj ys => beqObjJ xs ys
  | _, _ => false

/-- Elementwise `beqJ` on arrays. -/
def beqArrJ : List JsonVal → List JsonVal → Bool
  | [], [] => true
  | x :: xs, y :: ys => beqJ x y && beqArrJ xs ys
  | _, _ => false

/-- Fieldwise `beqJ` on objects (keys compared as strings). -/
def beqObjJ : List (String × JsonVal) → List (String × JsonVal) → Bool
  | [], [] => true
  | (k, x) :: xs, (l, y) :: ys => k == l && beqJ x y && beqObjJ xs ys
  | _, _ => false
end

mutual
theorem beqJ_iff : ∀ a b : JsonVal, beqJ a b = true ↔ a = b
  | .null, b => by cases b <;> simp [beqJ]
  | .bool a, b => by cases b <;> simp [beqJ]
  | .num a, b => by cases b <;> simp [beqJ]
  | .str a, b => by cases b <;> simp [beqJ]
  | .arr xs, b => by
    cases b <;> simp [beqJ]
    exact beqArrJ_iff xs _
  | .obj xs, b => by
    cases b <;> simp [beqJ]
    exact beqObjJ_iff xs _

theorem beqArrJ_iff : ∀ xs ys : List JsonVal, beqArrJ xs ys = true ↔ xs = ys
  | [], ys => by cases ys <;> simp [beqArrJ]
  | x :: xs, ys => by
    cases ys with
    | nil => simp [beqArrJ]
    | cons y ys =>
      simp [beqArrJ, Bool.and_eq_true, beqJ_iff x y, beqArrJ_iff xs ys]

theorem beqObjJ_iff : ∀ xs ys : List (String × JsonVal), beqObjJ xs ys = true ↔ xs = ys
  | [], ys => by cases ys <;> simp [beqObjJ]
  | (k, x) :: xs, ys => by
    cases ys with
    | nil => simp [beqObjJ]
    | cons y ys =>
      obtain ⟨l, v⟩ := y
      simp [beqObjJ, Bool.and_eq_true, beqJ_iff x v, beqObjJ_iff xs ys]
end

instance : DecidableEq JsonVal := fun a b => decidable_of_iff _ (beqJ_iff a b)

instance : BEq JsonVal := ⟨beqJ⟩

/-- A path segment: an object key or an array index, as stored in the
repository's path arrays (strings and numbers). -/
inductive Seg where
  | key (s : String)
  | idx (n : Nat)
deriving Repr, BEq, DecidableEq, Inhabited

/-- The string a segment turns into when JavaScript stringifies it
(template literals, `Array.prototype.join`). -/
def segToString : Seg → String
  | .key s => s
  | .idx n => toString n

mutual
/-- Nesting depth of a value: scalars (and empty containers) have depth 0, a
container is one deeper than its deepest child.  This is the quantity the
statistics traversal reports as `maxDepth` for the root at depth 0. -/
def jdepth : JsonVal → Nat
  | .null => 0 | .bool _ => 0 | .num _ => 0 | .str _ => 0
  | .arr es => jdepthArr es
  | .obj ms => jdepthObj ms

/-- Depth of an array node: `0` when empty, else one more than the deepest element. -/
def jdepthArr : List JsonVal → Nat
  | [] => 0
  | e :: es => Nat.max (1 + jdepth e) (jdepthArr es)

/-- Depth of an object node: `0` when empty, else one more than the deepest value. -/
def jdepthObj : List (String × JsonVal) → Nat
  | [] => 0
  | (_, v) :: ms => Nat.max (1 + jdepth v) (jdepthObj ms)
end

mutual
/-- Well-formedness of a value as a JavaScript runtime object: every object
node has pairwise-distinct keys (JS objects cannot hold duplicate keys; a
`JSON.parse` of duplicated keys keeps one binding). -/
def jsonWF : JsonVal → Bool
  | .null => true | .bool _ => true | .num _ => true | .str _ => true
  | .arr es => jsonWFArr es
  | .obj ms => (ms.map Prod.fst).Nodup && jsonWFObj ms

/-- `jsonWF` for every element of an array. -/
def jsonWFArr : List JsonVal → Bool
  | [] => true
  | e :: es => jsonWF e && jsonWFArr es

/-- `jsonWF` for every field value of an object. -/
def jsonWFObj : List (String × JsonVal) → Bool
  | [] => true
  | (_, v) :: ms => jsonWF v && jsonWFObj ms
end

/-! ## The host JSON parser (`JSON.parse`), modelled

The repair engine and the structural parser both call the host's strict JSON
parser and read its error message.  `jsonParse` models it: same grammar
(RFC 8259: `ws` is space, tab, LF, CR), and a structured error in place of the
message string, carrying the absolute character offset exactly when a real
engine's message would contain `at position N`. -/

/-- Classification of a host-parser error message, standing in for the raw
string that `json-repair.js` probes with `includes(...)` and
`/position (\d+)/`.  Each constructor corresponds to one message family. -/
inductive JsErrKind where
  /-- "Expected ':' after property name in JSON at position N" -/
  | expectedColon
  /-- "Expected ',' or '\x7d' after property value in JSON at position N" -/
  | expectedCommaOrBrace
  /-- "Expected ',' or ']' after array element in JSON at position N" -/
  | expectedCommaOrBracket
  /-- "Expected double-quoted property name in JSON at position N" -/
  | expectedPropName
  /-- "Unexpected token c in JSON at position N" -/
  | unexpectedToken (c : Char)
  /-- "Unexpected end of JSON input" (carries no position) -/
  | unexpectedEnd
deriving Repr, BEq, DecidableEq

/-- A host-parser failure: its message classification and the character offset
recoverable from the message (`none` when the message has no `position N`). -/
structure JsError where
  kind : JsErrKind
  pos : Option Nat
deriving Repr, DecidableEq

/-- JSON whitespace (`ws` of RFC 8259, as honoured by `JSON.parse`). -/
def isJsonWs (c : Char) : Bool :=
  c = ' ' || c = '\t' || c = '\n' || c = '\r'

/-- Decimal digit test. -/
def isDigitChar (c : Char) : Bool := '0' ≤ c && c ≤ '9'

/-- Skip JSON whitespace, advancing the absolute offset. -/
def skipWsPos : List Char → Nat → List Char × Nat
  | c :: cs, p => if isJsonWs c then skipWsPos cs (p + 1) else (c :: cs, p)
  | [], p => ([], p)

/-- Longest digit prefix and the rest. -/
def takeDigits : List Char → List Char × List Char
  | c :: cs =>
    if isDigitChar c then
      let t := takeDigits cs
      (c :: t.1, t.2)
    else ([], c :: cs)
  | [] => ([], [])

/-- Value of a digit string. -/
def digitsVal (ds : List Char) : Nat :=
  ds.foldl (fun acc c => acc * 10 + (c.toNat - '0'.toNat)) 0

/-- Hex digit value, if any (code-point arithmetic: `0-9`, `a-f`, `A-F`). -/
def hexDigitVal (c : Char) : Option Nat :=
  let n := c.toNat
  if 48 ≤ n ∧ n ≤ 57 then some (n - 48)
  else if 97 ≤ n ∧ n ≤ 102 then some (n - 87)
  else if 65 ≤ n ∧ n ≤ 70 then some (n - 55)
  else none

/-- The exact rational denoted by a JSON number literal
`sign intDigits . fracDigits e expSign expDigits`. -/
def jsonNumVal (neg : Bool) (intDs fracDs : List Char) (expNeg : Bool)
    (expDs : List Char) : ℚ :=
  let mant : Int := (digitsVal intDs * 10 ^ fracDs.length + digitsVal fracDs : Nat)
  let mant : Int := if neg then -mant else mant
  let e : Int := (if expNeg then -(digitsVal expDs : Int) else (digitsVal expDs : Int))
      - (fracDs.length : Int)
  if 0 ≤ e then ((mant * 10 ^ e.toNat : Int) : ℚ)
  else (mant : ℚ) / ((10 ^ (-e).toNat : Int) : ℚ)

/-- Parse the body of a string literal, the opening quote already consumed at
offset `p - 1`.  Returns the decoded string, the rest, and the offset just past
the closing quote.  Control characters and bad escapes are "Unexpected token"
class errors at their offset; an unterminated string is end-of-input. -/
def parseStringBody : List Char → Nat → List Char →
    Except JsError (String × List Char × Nat)
  | acc, p, '"' :: rest => .ok (String.mk acc.reverse, rest, p + 1)
  | acc, p, '\\' :: e :: rest =>
    match e with
    | '"' => parseStringBody ('"' :: acc) (p + 2) rest
    | '\\' => parseStringBody ('\\' :: acc) (p + 2) rest
    | '/' => parseStringBody ('/' :: acc) (p + 2) rest
    | 'b' => parseStringBody (Char.ofNat 8 :: acc) (p + 2) rest
    | 'f' => parseStringBody (Char.ofNat 12 :: acc) (p + 2) rest
    | 'n' => parseStringBody ('\n' :: acc) (p + 2) rest
    | 'r' => parseStringBody ('\r' :: acc) (p + 2) rest
    | 't' => parseStringBody ('\t' :: acc) (p + 2) rest
    | 'u' =>
      match rest with
      | a :: b :: c :: d :: rest' =>
        match hexDigitVal a, hexDigitVal b, hexDigitVal c, hexDigitVal d with
        | some va, some vb, some vc, some vd =>
          parseStringBody
            (Char.ofNat (((va * 16 + vb) * 16 + vc) * 16 + vd) :: acc) (p + 6) rest'
        | _, _, _, _ => .error ⟨.unexpectedToken e, some (p + 1)⟩
      | _ => .error ⟨.unexpectedEnd, none⟩
    | _ => .error ⟨.unexpectedToken e, some (p + 1)⟩
  | acc, p, c :: rest =>
    if c.toNat < 32 then .error ⟨.unexpectedToken c, some p⟩
    else parseStringBody (c :: acc) (p + 1) rest
  | _, _, [] => .error ⟨.unexpectedEnd, none⟩

/-- Parse a number literal starting at offset `p` (first char is `-` or a
digit). -/
def parseNumber (cs : List Char) (p : Nat) :
    Except JsError (ℚ × List Char × Nat) :=
  let (neg, cs1, p1) := match cs with
    | '-' :: r => (true, r, p + 1)
    | _ => (false, cs, p)
  match cs1 with
  | [] => .error ⟨.unexpectedEnd, none⟩
  | c :: _ =>
    if ¬ isDigitChar c then .error ⟨.unexpectedToken c, some p1⟩
    else
      let (intDs, cs2) := takeDigits cs1
      -- JSON forbids leading zeros: after "0" no further digit may follow.
      if intDs.length > 1 ∧ intDs.headI = '0' then
        .error ⟨.unexpectedToken '0', some p1⟩
      else
        let p2 := p1 + intDs.length
        let (fracDs, cs3, p3) := match cs2 with
          | '.' :: r =>
            let t := takeDigits r
            (t.1, t.2, p2 + 1 + t.1.length)
          | _ => ([], cs2, p2)
        if (cs2.headI = '.' ∧ cs2 ≠ []) ∧ fracDs = [] then
          .error ⟨.unexpectedToken '.', some p2⟩
        else
          match cs3 with
          | 'e' :: r | 'E' :: r =>
            let (expNeg, r1, pe) := match r with
              | '-' :: r' => (true, r', p3 + 2)
              | '+' :: r' => (false, r', p3 + 2)
              | _ => (false, r, p3 + 1)
            let (expDs, cs4) := takeDigits r1
            if expDs = [] then .error ⟨.unexpectedToken 'e', some p3⟩
            else .ok (jsonNumVal neg intDs fracDs expNeg expDs,
                      cs4, pe + expDs.length)
          | _ => .ok (jsonNumVal neg intDs fracDs false [], cs3, p3)

/-- Insert a field at the end of a reversed accumulator, overwriting an
existing binding of the same key in place (JavaScript object semantics). -/
def insertField (acc : List (String × JsonVal)) (k : String) (v : JsonVal) :
    List (String × JsonVal) :=
  if acc.any (fun f => f.1 = k) then
    acc.map (fun f => if f.1 = k then (k, v) else f)
  else (k, v) :: acc

mutual
/-- Parse one JSON value at offset `p`.  `fuel` only bounds the nesting
recursion (any input of length `n` nests fewer than `n + 1` levels, so the
top-level entry point never exhausts it). -/
def parseValue (fuel : Nat) (cs : List Char) (p : Nat) :
    Except JsError (JsonVal × List Char × Nat) :=
  match fuel with
  | 0 => .error ⟨.unexpectedEnd, none⟩
  | fuel + 1 =>
    match cs with
    | [] => .error ⟨.unexpectedEnd, none⟩
    | '{' :: rest => parseObjectItems fuel rest (p + 1) [] true
    | '[' :: rest => parseArrayItems fuel rest (p + 1) [] true
    | '"' :: rest =>
      match parseStringBody [] (p + 1) rest with
      | .ok (s, r, p') => .ok (.str s, r, p')
      | .error e => .error e
    | 't' :: 'r' :: 'u' :: 'e' :: rest => .ok (.bool true, rest, p + 4)
    | 'f' :: 'a' :: 'l' :: 's' :: 'e' :: rest => .ok (.bool false, rest, p + 5)
    | 'n' :: 'u' :: 'l' :: 'l' :: rest => .ok (.null, rest, p + 4)
    | c :: _ =>
      if c = '-' ∨ isDigitChar c then
        match parseNumber cs p with
        | .ok (q, r, p') => .ok (.num q, r, p')
        | .error e => .error e
      else .error ⟨.unexpectedToken c, some p⟩

/-- Parse the items of an array, the opening bracket already consumed.
`first` is true before any element has been read. -/
def parseArrayItems (fuel : Nat) (cs : List Char) (p : Nat)
    (acc : List JsonVal) (first : Bool) :
    Except JsError (JsonVal × List Char × Nat) :=
  match fuel with
  | 0 => .error ⟨.unexpectedEnd, none⟩
  | fuel + 1 =>
    let (cs1, p1) := skipWsPos cs p
    match cs1 with
    | [] => .error ⟨.unexpectedEnd, none⟩
    | ']' :: rest =>
      if first then .ok (.arr acc.reverse, rest, p1 + 1)
      else .error ⟨.unexpectedToken ']', some p1⟩
    | _ =>
      match parseValue fuel cs1 p1 with
      | .error e => .error e
      | .ok (v, cs2, p2) =>
        let (cs3, p3) := skipWsPos cs2 p2
        match cs3 with
        | ',' :: rest => parseArrayItems fuel rest (p3 + 1) (v :: acc) false
        | ']' :: rest => .ok (.arr (v :: acc).reverse, rest, p3 + 1)
        | _ :: _ => .error ⟨.expectedCommaOrBracket, some p3⟩
        | [] => .error ⟨.unexpectedEnd, none⟩

/-- Parse the members of an object, the opening brace already consumed.
Duplicate keys overwrite the earlier binding in place, as in JavaScript. -/
def parseObjectItems (fuel : Nat) (cs : List Char) (p : Nat)
    (acc : List (String × JsonVal)) (first : Bool) :
    Except JsError (JsonVal × List Char × Nat) :=
  match fuel with
  | 0 => .error ⟨.unexpectedEnd, none⟩
  | fuel + 1 =>
    let (cs1, p1) := skipWsPos cs p
    match cs1 with
    | [] => .error ⟨.unexpectedEnd, none⟩
    | '}' :: rest =>
      if first then .ok (.obj acc.reverse, rest, p1 + 1)
      else .error ⟨.unexpectedToken '}', some p1⟩
    | '"' :: rest =>
      match parseStringBody [] (p1 + 1) rest with
      | .error e => .error e
      | .ok (k, cs2, p2) =>
        let (cs3, p3) := skipWsPos cs2 p2
        match cs3 with
        | ':' :: rest' =>
          let (cs4, p4) := skipWsPos rest' (p3 + 1)
          match parseValue fuel cs4 p4 with
          | .error e => .error e
          | .ok (v, cs5, p5) =>
            let (cs6, p6) := skipWsPos cs5 p5
            match cs6 with
            | ',' :: rest'' => parseObjectItems fuel rest'' (p6 + 1)
                (insertField acc k v) false
            | '}' :: rest'' => .ok (.obj (insertField acc k v).reverse, rest'', p6 + 1)
            | _ :: _ => .error ⟨.expectedCommaOrBrace, some p6⟩
            | [] => .error ⟨.unexpectedEnd, none⟩
        | _ :: _ => .error ⟨.expectedColon, some p3⟩
        | [] => .error ⟨.unexpectedEnd, none⟩
    | _ :: _ => .error ⟨.expectedPropName, some p1⟩
end

/-- The host's `JSON.parse`, modelled: skip surrounding whitespace, parse one
value, and demand the input be exhausted. -/
def jsonParse (s : String) : Except JsError JsonVal :=
  let cs := s.data
  let (cs1, p1) := skipWsPos cs 0
  match cs1 with
  | [] => .error ⟨.unexpectedEnd, none⟩
  | _ =>
    match parseValue (cs.length + 1) cs1 p1 with
    | .error e => .error e
    | .ok (v, rest, p2) =>
      let (rest', p3) := skipWsPos rest p2
      match rest' with
      | [] => .ok v
      | c :: _ => .error ⟨.unexpectedToken c, some p3⟩

/-! ## `JSONParser` (src/json-parser.js) -/

/-- A single-quote character, kept out of string literals. -/
def sq : String := String.singleton (Char.ofNat 39)

/-- `JSONParser.getType`: JS `typeof` refined with null/array checks. -/
def getType : JsonVal → String
  | .null => "null"
  | .arr _ => "array"
  | .bool _ => "boolean"
  | .num _ => "number"
  | .str _ => "string"
  | .obj _ => "object"

/-- First character of a bare JS identifier (`/^[a-zA-Z_$]/`). -/
def isIdentStart (c : Char) : Bool :=
  (97 ≤ c.toNat && c.toNat ≤ 122) || (65 ≤ c.toNat && c.toNat ≤ 90) ||
    c = '_' || c = '$'

/-- Later character of a bare JS identifier (`/[a-zA-Z0-9_$]/`). -/
def isIdentChar (c : Char) : Bool := isIdentStart c || isDigitChar c

/-- The key test `/^[a-zA-Z_$][a-zA-Z0-9_$]*$/.test(key)` used by
`generateAccessPath` (and by the Code Helper's property-path builder). -/
def isValidIdentifier (s : String) : Bool :=
  match s.data with
  | [] => false
  | c :: rest => isIdentStart c && rest.all isIdentChar

/-- `JSONParser.generateDescription`: human-readable chain of path parts. -/
def generateDescription (pathArray : List Seg) : String :=
  if pathArray = [] then "Root object"
  else String.intercalate " → " (pathArray.map fun k =>
    match k with
    | .idx n => "element at index " ++ toString n
    | .key s => "property \"" ++ s ++ "\"")

/-- The record returned by `JSONParser.generateAccessPath`. -/
structure AccessPath where
  dot : String
  bracket : String
  optional : String
  description : String
deriving Repr, DecidableEq

/-- `JSONParser.generateAccessPath`: builds dot / bracket / optional-chaining
notations rooted at the binding name `data`. -/
def generateAccessPath (pathArray : List Seg) : AccessPath :=
  if pathArray = [] then ⟨"data", "data", "data", "Root object"⟩
  else
    let step := fun (acc : String × String × String) (k : Seg) =>
      match k with
      | .idx n =>
        (acc.1 ++ "[" ++ toString n ++ "]",
         acc.2.1 ++ "[" ++ toString n ++ "]",
         acc.2.2 ++ "?.[" ++ toString n ++ "]")
      | .key s =>
        if isValidIdentifier s then
          (acc.1 ++ "." ++ s,
           acc.2.1 ++ "[" ++ sq ++ s ++ sq ++ "]",
           acc.2.2 ++ "?." ++ s)
        else
          (acc.1 ++ "[" ++ sq ++ s ++ sq ++ "]",
           acc.2.1 ++ "[" ++ sq ++ s ++ sq ++ "]",
           acc.2.2 ++ "?.[" ++ sq ++ s ++ sq ++ "]")
    let r := pathArray.foldl step ("data", "data", "data")
    ⟨r.1, r.2.1, r.2.2, generateDescription pathArray⟩

mutual
/-- `JSONParser.countNodes` at a given recursion depth: beyond the depth bound
(`this.maxDepth = 100`) a node counts as 1 and its children are not visited;
otherwise a leaf counts 1 and a container counts itself plus its children
(`Object.keys` enumerates array indices and object keys alike). -/
def countNodesGo : JsonVal → Nat → Nat
  | v, depth =>
    if depth > 100 then 1
    else
      match v with
      | .arr es => 1 + countNodesList es (depth + 1)
      | .obj ms => 1 + countNodesFields ms (depth + 1)
      | _ => 1

/-- Sum of `countNodesGo` over an array's elements. -/
def countNodesList : List JsonVal → Nat → Nat
  | [], _ => 0
  | e :: es, depth => countNodesGo e depth + countNodesList es depth

/-- Sum of `countNodesGo` over an object's field values. -/
def countNodesFields : List (String × JsonVal) → Nat → Nat
  | [], _ => 0
  | (_, v) :: ms, depth => countNodesGo v depth + countNodesFields ms depth
end

/-- `JSONParser.countNodes` with its default `depth = 0`. -/
def countNodes (v : JsonVal) : Nat := countNodesGo v 0

/-- The statistics record accumulated by `JSONParser.getStatistics`. -/
structure JStats where
  totalNodes : Nat := 0
  maxDepth : Nat := 0
  arrays : Nat := 0
  objects : Nat := 0
  primitives : Nat := 0
  nulls : Nat := 0
deriving Repr, DecidableEq

/-- Pointwise combination of two statistics contributions: counters add and
`maxDepth` (a running `Math.max`) takes the maximum. -/
def statsMerge (a b : JStats) : JStats :=
  { totalNodes := a.totalNodes + b.totalNodes
    maxDepth := max a.maxDepth b.maxDepth
    arrays := a.arrays + b.arrays
    objects := a.objects + b.objects
    primitives := a.primitives + b.primitives
    nulls := a.nulls + b.nulls }

mutual
/-- The `traverse` closure of `JSONParser.getStatistics`: nodes deeper than the
bound (`this.maxDepth = 100`) contribute nothing (the visit returns before
counting); otherwise the node is tallied by kind and its children visited one
level deeper. -/
def statsTraverse : JsonVal → Nat → JStats
  | v, depth =>
    if depth > 100 then {}
    else
      match v with
      | .null => { totalNodes := 1, maxDepth := depth, nulls := 1 }
      | .arr es =>
        statsMerge { totalNodes := 1, maxDepth := depth, arrays := 1 }
          (statsList es (depth + 1))
      | .obj ms =>
        statsMerge { totalNodes := 1, maxDepth := depth, objects := 1 }
          (statsFields ms (depth + 1))
      | _ => { totalNodes := 1, maxDepth := depth, primitives := 1 }

/-- `statsTraverse` summed over an array's elements. -/
def statsList : List JsonVal → Nat → JStats
  | [], _ => {}
  | e :: es, depth => statsMerge (statsTraverse e depth) (statsList es depth)

/-- `statsTraverse` summed over an object's field values. -/
def statsFields : List (String × JsonVal) → Nat → JStats
  | [], _ => {}
  | (_, v) :: ms, depth => statsMerge (statsTraverse v depth) (statsFields ms depth)
end

/-- `JSONParser.getStatistics`: the traversal started at the root, depth 0. -/
def getStatistics (data : JsonVal) : JStats := statsTraverse data 0

/-- One row produced by `JSONParser.flatten`.  The source stores the display
record `generateAccessPath(path)` in its `path` field; the model records the
underlying segment list (from which that record is a pure function), because
the claims quantify over resolving the path. -/
structure FlatEntry where
  path : List Seg
  value : JsonVal
  type : String
deriving Repr, DecidableEq

mutual
/-- The `traverse` closure of `JSONParser.flatten`: nodes deeper than
`maxDepth` are skipped entirely; a leaf (null or primitive) emits one row;
a container emits no row of its own and recurses into its children. -/
def flattenGo : JsonVal → List Seg → Nat → Nat → List FlatEntry
  | v, path, depth, maxD =>
    if depth > maxD then []
    else
      match v with
      | .arr es => flattenList es path 0 (depth + 1) maxD
      | .obj ms => flattenFields ms path (depth + 1) maxD
      | _ => [⟨path, v, getType v⟩]

/-- `flattenGo` over an array's elements, with their indices. -/
def flattenList : List JsonVal → List Seg → Nat → Nat → Nat → List FlatEntry
  | [], _, _, _, _ => []
  | e :: es, path, i, depth, maxD =>
    flattenGo e (path ++ [.idx i]) depth maxD ++ flattenList es path (i + 1) depth maxD

/-- `flattenGo` over an object's fields, with their keys. -/
def flattenFields : List (String × JsonVal) → List Seg → Nat → Nat → List FlatEntry
  | [], _, _, _ => []
  | (k, v) :: ms, path, depth, maxD =>
    flattenGo v (path ++ [.key k]) depth maxD ++ flattenFields ms path depth maxD
end

/-- `JSONParser.flatten` with its default `maxDepth = 10`. -/
def flatten (data : JsonVal) (maxD : Nat := 10) : List FlatEntry :=
  flattenGo data [] 0 maxD

/-- Characters removed by JavaScript `String.prototype.trim` (the common
ones; exotic Unicode space classes are not exercised by any claim). -/
def isJsTrimWs (c : Char) : Bool :=
  c = ' ' || c = '\t' || c = '\n' || c = '\r' ||
  c = Char.ofNat 12 || c = Char.ofNat 11 || c = Char.ofNat 0xa0 || c = Char.ofNat 0xfeff

/-- JavaScript `String.prototype.trim`. -/
def jsTrim (s : String) : String :=
  String.mk (((s.data.dropWhile isJsTrimWs).reverse.dropWhile isJsTrimWs).reverse)

/-- The object returned by `JSONParser.parse`.  The JS object carries no
`column` property at all; reading it yields `undefined`, modelled as a
`column` field that is always `none`. -/
structure ParseResult where
  success : Bool
  data : Option JsonVal := none
  error : Option String := none
  line : Option Nat := none
  column : Option Nat := none
deriving Repr, DecidableEq

/-- The host parser's message text for an error kind (without the trailing
position part). -/
def errKindMsg : JsErrKind → String
  | .expectedColon => "Expected " ++ sq ++ ":" ++ sq ++ " after property name in JSON"
  | .expectedCommaOrBrace =>
    "Expected " ++ sq ++ "," ++ sq ++ " or " ++ sq ++ "\x7d" ++ sq ++
      " after property value in JSON"
  | .expectedCommaOrBracket =>
    "Expected " ++ sq ++ "," ++ sq ++ " or " ++ sq ++ "]" ++ sq ++
      " after array element in JSON"
  | .expectedPropName => "Expected double-quoted property name in JSON"
  | .unexpectedToken c => "Unexpected token " ++ String.singleton c ++ " in JSON"
  | .unexpectedEnd => "Unexpected end of JSON input"

/-- The host parser's full message text, with `at position N` present exactly
when an offset is recoverable. -/
def errMsg (e : JsError) : String :=
  errKindMsg e.kind ++
    (match e.pos with
     | some p => " at position " ++ toString p
     | none => "")

/-- `JSONParser.getErrorLine`: when the error message carries `position N`,
the 1-based line is `jsonString.substring(0, N).split('\n').length`, i.e. one
more than the number of newline characters among the first `N` characters of
the (untrimmed) input; otherwise `null`.  -/
def getErrorLine (e : JsError) (jsonString : String) : Option Nat :=
  match e.pos with
  | some p => some (((jsonString.data.take p).count '\n') + 1)
  | none => none

/-- `JSONParser.parse`: validates the input, trims it, delegates to the host
parser, and on failure reports the message and the error line (the line is
computed against the untrimmed input, as in the source). -/
def parse (jsonString : String) : ParseResult :=
  if jsonString = "" then
    { success := false, error := some "Invalid input: expected a string" }
  else
    let trimmed := jsTrim jsonString
    if trimmed.length = 0 then
      { success := false, error := some "Empty JSON string" }
    else
      match jsonParse trimmed with
      | .ok v => { success := true, data := some v, error := none }
      | .error e =>
        { success := false
          error := some ("Parse error: " ++ errMsg e)
          line := getErrorLine e jsonString }

/-! ## Path resolution and node identity (src/json-visualizer.js) -/

/-- First field of the given name, if any (JavaScript object property read;
parsed objects never hold duplicate keys). -/
def lookupField : List (String × JsonVal) → String → Option JsonVal
  | [], _ => none
  | (k, v) :: fs, key => if k = key then some v else lookupField fs key

/-- JavaScript member access `base[seg]` for a *defined, non-null* base:
object fields by (stringified) key, array elements by index, string characters
by index, `length` of arrays and strings; anything else is `undefined`
(`none`).  Built-in method properties are not modelled — no claim touches
them. -/
def jsMember (v : JsonVal) (s : Seg) : Option JsonVal :=
  match v, s with
  | .obj fs, .key k => lookupField fs k
  | .obj fs, .idx n => lookupField fs (toString n)
  | .arr xs, .idx n => xs.get? n
  | .arr xs, .key k => if k = "length" then some (.num xs.length) else none
  | .str t, .idx n => (t.data.get? n).map (fun c => .str (String.singleton c))
  | .str t, .key k => if k = "length" then some (.num t.data.length) else none
  | _, _ => none

/-- The loop body of `PrettierVisualizer.getValueAtPath`: each step performs
`current = current[key]` with no guard, so a `null` or `undefined` current with
segments still to process throws a `TypeError` (`Except.error ()`). -/
def getValueAtPathGo : Option JsonVal → List Seg → Except Unit (Option JsonVal)
  | cur, [] => .ok cur
  | none, _ :: _ => .error ()
  | some .null, _ :: _ => .error ()
  | some v, s :: rest => getValueAtPathGo (jsMember v s) rest

/-- `PrettierVisualizer.getValueAtPath`: sequential unguarded lookup from the
root. -/
def getValueAtPath (obj : JsonVal) (path : List Seg) : Except Unit (Option JsonVal) :=
  getValueAtPathGo (some obj) path

/-- The spec's `resolve(document, path)` (§4.3): sequential lookup in which a
miss at any segment short-circuits to "not found" and which never throws.
Used to state what resolution *should* do, and as the inductive workhorse for
the flatten-path claims. -/
def resolveV : JsonVal → List Seg → Option JsonVal
  | v, [] => some v
  | .obj fs, .key k :: rest => (lookupField fs k).bind (fun u => resolveV u rest)
  | .arr xs, .idx n :: rest => (xs.get? n).bind (fun u => resolveV u rest)
  | _, _ :: _ => none

/-- The node identity used by `TreeVisualizer.buildTree` and
`GraphVisualizer.extractNodesLazy`:
`path.length === 0 ? 'root' : path.join('.')`. -/
def nodeId (path : List Seg) : String :=
  if path = [] then "root"
  else String.intercalate "." (path.map segToString)

/-! ## `JSONRepair` (src/json-repair.js) -/

/-- Global, non-overlapping, left-to-right replacement of a literal pattern:
the scanning loop, structural on a fuel that the wrapper seeds with the
input's length (each step strips at least one character, so the fuel never
runs dry). -/
def replaceCountSubGo (pat repl : List Char) : Nat → List Char → List Char × Nat
  | _, [] => ([], 0)
  | 0, c :: rest => (c :: rest, 0)
  | fuel + 1, c :: rest =>
    if pat ≠ [] ∧ pat.isPrefixOf (c :: rest) then
      let t := replaceCountSubGo pat repl fuel ((c :: rest).drop pat.length)
      (repl ++ t.1, t.2 + 1)
    else
      let t := replaceCountSubGo pat repl fuel rest
      (c :: t.1, t.2)

/-- Global, non-overlapping, left-to-right replacement of a literal pattern,
returning the rewritten text and the number of matches — the semantics of
`str.match(/pat/g)` / `str.replace(/pat/g, repl)` for a literal pattern. -/
def replaceCountSub (pat repl : List Char) (s : List Char) : List Char × Nat :=
  replaceCountSubGo pat repl s.length s

/-- The character class `\s` of the JavaScript regex engine (the common
members; exotic Unicode spaces are not exercised by any claim). -/
def isRegexWs (c : Char) : Bool :=
  c = ' ' || c = '\t' || c = '\n' || c = '\r' ||
  c = Char.ofNat 12 || c = Char.ofNat 11 || c = Char.ofNat 0xa0

/-- Try to read `\s*[\]\x7d]` (the tail of the trailing-comma pattern) off the
front of the input: whitespace, then a closing bracket or brace, then the
rest. -/
def splitWsClose (rest : List Char) : Option (List Char × Char × List Char) :=
  let ws := rest.takeWhile isRegexWs
  match rest.dropWhile isRegexWs with
  | cl :: r => if cl = ']' ∨ cl = Char.ofNat 125 then some (ws, cl, r) else none
  | [] => none

/-- The scanning loop of the trailing-comma replacement, structural on a fuel
that the wrapper seeds with the input's length (each step consumes at least
one character). -/
def fixTrailingCommasGo : Nat → List Char → List Char × Nat
  | _, [] => ([], 0)
  | 0, s => (s, 0)
  | fuel + 1, c :: rest =>
    if c = ',' then
      match splitWsClose rest with
      | some (ws, cl, r) =>
        let t := fixTrailingCommasGo fuel r
        (ws ++ cl :: t.1, t.2 + 1)
      | none =>
        let t := fixTrailingCommasGo fuel rest
        (c :: t.1, t.2)
    else
      let t := fixTrailingCommasGo fuel rest
      (c :: t.1, t.2)

/-- The replacement `result.replace(/,(\s*[\]\x7d])/g, '$1')` together with its
match count: every comma followed (across whitespace) by a closing bracket or
brace is dropped, the matched group is kept, and scanning resumes after it. -/
def fixTrailingCommas (s : List Char) : List Char × Nat :=
  fixTrailingCommasGo s.length s

/-- `JSONRepair.fixCommonPatterns`: the four Phase A pattern rewrites, each
applied globally and logged with its match count when it matched at all. -/
def fixCommonPatterns (str : String) : String × List String :=
  let r0 := str.data
  let t1 := replaceCountSub "[Object]".data "\x7b\x7d".data r0
  let s1 := if t1.2 > 0 then t1.1 else r0
  let l1 : List String :=
    if t1.2 > 0 then
      ["Replaced " ++ toString t1.2 ++ " instance(s) of [Object] with \x7b\x7d"]
    else []
  let t2 := replaceCountSub "[[Object]]".data "[\x7b\x7d]".data s1
  let s2 := if t2.2 > 0 then t2.1 else s1
  let l2 : List String :=
    if t2.2 > 0 then
      ["Replaced " ++ toString t2.2 ++ " instance(s) of [[Object]] with [\x7b\x7d]"]
    else []
  let t3 := replaceCountSub "\"Object\"".data "\x7b\x7d".data s2
  let s3 := if t3.2 > 0 then t3.1 else s2
  let l3 : List String :=
    if t3.2 > 0 then
      ["Replaced " ++ toString t3.2 ++ " instance(s) of \"Object\" with \x7b\x7d"]
    else []
  let t4 := fixTrailingCommas s3
  let s4 := if t4.2 > 0 then t4.1 else s3
  let l4 : List String :=
    if t4.2 > 0 then ["Removed " ++ toString t4.2 ++ " trailing comma(s)"] else []
  (String.mk s4, l1 ++ l2 ++ l3 ++ l4)

/-- The record built by `JSONRepair.parseError` from a host error message:
the extracted position and the message (kept here as its classification; the
source also captures an `Expected '…'` group that no consumer reads). -/
structure ErrorInfo where
  position : Nat
  message : JsErrKind
deriving Repr, DecidableEq

/-- `JSONRepair.parseError`: an `ErrorInfo` exactly when the message carries
`position N`. -/
def parseErrorInfo (e : JsError) : Option ErrorInfo :=
  match e.pos with
  | some p => some ⟨p, e.kind⟩
  | none => none

/-- `message.includes("Expected ':'")`. -/
def msgHasExpectedColon : JsErrKind → Bool
  | .expectedColon => true
  | _ => false

/-- `message.includes("after property name")`. -/
def msgHasAfterPropertyName : JsErrKind → Bool
  | .expectedColon => true
  | _ => false

/-- `message.includes("Expected ','")`. -/
def msgHasExpectedComma : JsErrKind → Bool
  | .expectedCommaOrBrace => true
  | .expectedCommaOrBracket => true
  | _ => false

/-- `message.includes("after property value")`. -/
def msgHasAfterPropertyValue : JsErrKind → Bool
  | .expectedCommaOrBrace => true
  | _ => false

/-- `message.includes("Unexpected token")`. -/
def msgHasUnexpectedToken : JsErrKind → Bool
  | .unexpectedToken _ => true
  | _ => false

/-- The state record returned by `JSONRepair.getContext`. -/
structure Ctx where
  inString : Bool
  inObject : Bool
  inArray : Bool
  depth : Int
deriving Repr, DecidableEq

/-- The scanning loop of `JSONRepair.getContext`: walks the first `pos`
characters tracking quote state (with backslash escapes) and the raw `{}` /
`[]` nesting counters. -/
def getContextGo : List Char → Bool → Bool → Int → Int → Bool × Int × Int
  | [], inS, _, od, ad => (inS, od, ad)
  | c :: rest, inS, esc, od, ad =>
    if esc then getContextGo rest inS false od ad
    else if c = '\\' then getContextGo rest inS true od ad
    else if c = '"' then getContextGo rest (!inS) false od ad
    else if !inS then
      if c = Char.ofNat 123 then getContextGo rest inS false (od + 1) ad
      else if c = Char.ofNat 125 then getContextGo rest inS false (od - 1) ad
      else if c = '[' then getContextGo rest inS false od (ad + 1)
      else if c = ']' then getContextGo rest inS false od (ad - 1)
      else getContextGo rest inS false od ad
    else getContextGo rest inS false od ad

/-- `JSONRepair.getContext`. -/
def getContext (str : String) (pos : Nat) : Ctx :=
  let r := getContextGo (str.data.take pos) false false 0 0
  { inString := r.1
    inObject := r.2.1 > 0
    inArray := r.2.2 > 0
    depth := r.2.1 + r.2.2 }

/-- One applied fix: the rewritten text and the log message
(`JSONRepair.attemptFix`'s `{ fixed: true, result, message }`; `none` is
`{ fixed: false }`). -/
structure FixResult where
  result : String
  message : String
deriving Repr, DecidableEq

/-- `before + ins + after` where `before`/`after` split `str` at `pos`
(`substring` clamps out-of-range positions). -/
def insertAt (str : String) (pos : Nat) (ins : String) : String :=
  String.mk (str.data.take pos ++ ins.data ++ str.data.drop pos)

/-- `str.substring(0, pos) + str.substring(pos + 1)`. -/
def removeAt (str : String) (pos : Nat) : String :=
  String.mk (str.data.take pos ++ str.data.drop (pos + 1))

/-- `str.substring(0, pos) + '\\"' + str.substring(pos + 1)`: a backslash is
inserted in front of the quote at `pos`. -/
def escapeQuoteAt (str : String) (pos : Nat) : String :=
  String.mk (str.data.take pos ++ '\\' :: '"' :: str.data.drop (pos + 1))

/-- `JSONRepair.attemptFix`: the four single-character strategies, tried in
the source's order, each anchored at the reported position.  `str[pos]` is
`str.data.get? pos` (`undefined` off the end), and the duplicate test
`str[pos - 1] === char` compares the two possibly-undefined characters. -/
def attemptFix (str : String) (errorInfo : ErrorInfo) : Option FixResult :=
  let pos := errorInfo.position
  let char := str.data.get? pos
  let context := getContext str pos
  if msgHasExpectedColon errorInfo.message || msgHasAfterPropertyName errorInfo.message then
    some ⟨insertAt str pos ":",
      "Added missing " ++ sq ++ ":" ++ sq ++ " at position " ++ toString pos⟩
  else if msgHasExpectedComma errorInfo.message || msgHasAfterPropertyValue errorInfo.message then
    some ⟨insertAt str pos ",",
      "Added missing " ++ sq ++ "," ++ sq ++ " at position " ++ toString pos⟩
  else if msgHasUnexpectedToken errorInfo.message && decide (0 < pos) &&
      (str.data.get? (pos - 1) == char) then
    some ⟨removeAt str pos,
      "Removed duplicate " ++ sq ++
        (match char with | some c => String.singleton c | none => "undefined") ++
        sq ++ " at position " ++ toString pos⟩
  else if (char == some '"') && context.inString then
    some ⟨escapeQuoteAt str pos, "Escaped quote at position " ++ toString pos⟩
  else none

/-- The Phase B loop of `JSONRepair.fixStructuralErrors`, with the remaining
iteration budget explicit: stop when the text parses, when no offset is
recoverable from the error, when no strategy matches, or when the budget is
exhausted; otherwise apply the fix, log its message, and go round again. -/
def fixStructuralErrorsGo : Nat → String → List String → String × List String
  | 0, result, log => (result, log)
  | fuel + 1, result, log =>
    match jsonParse result with
    | .ok _ => (result, log)
    | .error e =>
      match parseErrorInfo e with
      | none => (result, log)
      | some info =>
        match attemptFix result info with
        | none => (result, log)
        | some fix => fixStructuralErrorsGo fuel fix.result (log ++ [fix.message])

/-- `JSONRepair.fixStructuralErrors` with its `maxIterations = 10`. -/
def fixStructuralErrors (str : String) (log : List String) : String × List String :=
  fixStructuralErrorsGo 10 str log

/-- The value returned by `JSONRepair.repair`:
`{ repaired, repairs }`. -/
structure RepairResult where
  repaired : String
  repairs : List String
deriving Repr, DecidableEq

/-- `JSONRepair.repair`: reset the log, run the Phase A pattern rewrites, then
the Phase B error-driven loop. -/
def repair (jsonString : String) : RepairResult :=
  let a := fixCommonPatterns jsonString
  let b := fixStructuralErrors a.1 a.2
  ⟨b.1, b.2⟩

/-! ## `CodeHelper` (Code Helper source file) -/

/-- One generated snippet: `{ title, code, description }`. -/
structure CodeExample where
  title : String
  code : String
  description : String
deriving Repr, DecidableEq

/-- The record returned by `CodeHelper.detectArrayContext`. -/
structure ArrayContext where
  isInArray : Bool
  arrayPath : List Seg
  propertyPath : List Seg
  arrayData : List JsonVal
  itemExample : Option JsonVal
deriving Repr, DecidableEq

/-- The scanning loop of `CodeHelper.detectArrayContext`: walk the path,
stopping (not found) when the running value is `undefined` or `null`, and
reporting the first array met along the way together with the path up to it
and the segments after the index. -/
def detectArrayContextGo (full : List Seg) : Option JsonVal → Nat → List Seg → Option ArrayContext
  | _, _, [] => none
  | current, i, seg :: remaining =>
    match current with
    | none => none
    | some .null => none
    | some (.arr xs) =>
      some { isInArray := true
             arrayPath := full.take i
             propertyPath := full.drop (i + 1)
             arrayData := xs
             itemExample := xs.head? }
    | some v => detectArrayContextGo full (jsMember v seg) (i + 1) remaining

/-- `CodeHelper.detectArrayContext` (empty or missing path: no context).  The
loop index `i` walks the path; the remaining-segment list drives the
structural recursion and always equals `currentPath.drop i`. -/
def detectArrayContext (jsonData : JsonVal) (currentPath : List Seg) : Option ArrayContext :=
  if currentPath = [] then none
  else detectArrayContextGo currentPath (some jsonData) 0 currentPath

/-- JavaScript truthiness of a JSON value. -/
def jsTruthy : JsonVal → Bool
  | .null => false
  | .bool b => b
  | .num q => decide (q ≠ 0)
  | .str s => decide (s ≠ "")
  | .arr _ => true
  | .obj _ => true

/-- JavaScript truthiness of a possibly-absent key label. -/
def keyTruthy : Option Seg → Bool
  | none => false
  | some (.key s) => decide (s ≠ "")
  | some (.idx n) => decide (n ≠ 0)

/-- How JavaScript prints a number in a template literal.  Exact for the
integers the claims use; non-integral rationals fall back to Lean's
numerator/denominator form (never exercised). -/
def jsNumToString (q : ℚ) : String :=
  if q.den = 1 then toString q.num else toString q

/-- The property-path chain built inside
`CodeHelper.generatePropertyInArrayExamples`:
`propertyPath.map(p => ident ? `.p` : `["p"]`).join('')`. -/
def propertyAccessPath (propertyPath : List Seg) : String :=
  String.join (propertyPath.map fun p =>
    let ps := segToString p
    if isValidIdentifier ps then "." ++ ps else "[\"" ++ ps ++ "\"]")

/-- `CodeHelper.generatePropertyInArrayExamples`: the array-context example
set for a property selected inside array elements.  `currentValue` and
`currentKey` are the selection's value and key label. -/
def generatePropertyInArrayExamples (ctx : ArrayContext) (currentValue : JsonVal)
    (currentKey : Option Seg) : List CodeExample :=
  let arrayPathInfo := generateAccessPath ctx.arrayPath
  let arrayAccessPath := if arrayPathInfo.dot = "" then "data" else arrayPathInfo.dot
  let pap := propertyAccessPath ctx.propertyPath
  let propertyName :=
    if keyTruthy currentKey then
      match currentKey with
      | some s => segToString s
      | none => "undefined"
    else
      match ctx.propertyPath.getLast? with
      | some s => segToString s
      | none => "undefined"
  let fullPropertyAccess := "item" ++ pap
  let isNumeric : Bool := match currentValue with | .num _ => true | _ => false
  let isString : Bool := match currentValue with | .str _ => true | _ => false
  let isBoolean : Bool := match currentValue with | .bool _ => true | _ => false
  -- `this.currentValue || 10`, then interpolated into the template
  let numFallbackStr :=
    match currentValue with
    | .num q => if q = 0 then "10" else jsNumToString q
    | _ => "10"
  let directAccess : CodeExample :=
    { title := "🎯 Direct Access"
      code := "const value = " ++ arrayAccessPath ++ "[0]" ++ pap ++ ";"
      description := "Access " ++ propertyName ++ " from specific item" }
  let mapAll : CodeExample :=
    { title := "🗺️ Map All Values"
      code := "const allValues = " ++ arrayAccessPath ++ ".map(item => " ++
        fullPropertyAccess ++ ");"
      description := "Get array of all " ++ propertyName ++ " values" }
  let filterEx : CodeExample :=
    if isNumeric then
      { title := "🔍 Filter by Property"
        code := "const filtered = " ++ arrayAccessPath ++ ".filter(item => " ++
          fullPropertyAccess ++ " > " ++ numFallbackStr ++ ");"
        description := "Filter items where " ++ propertyName ++ " > " ++ numFallbackStr }
    else if isString then
      let exampleValue :=
        match currentValue with
        | .str s => if s = "" then "\"example\"" else "\"" ++ s ++ "\""
        | _ => "\"example\""
      { title := "🔍 Filter by Property"
        code := "const filtered = " ++ arrayAccessPath ++ ".filter(item => " ++
          fullPropertyAccess ++ " === " ++ exampleValue ++ ");"
        description := "Filter items where " ++ propertyName ++ " matches" }
    else if isBoolean then
      { title := "🔍 Filter by Property"
        code := "const filtered = " ++ arrayAccessPath ++ ".filter(item => " ++
          fullPropertyAccess ++ ");"
        description := "Filter items where " ++ propertyName ++ " is true" }
    else
      { title := "🔍 Filter by Property"
        code := "const filtered = " ++ arrayAccessPath ++ ".filter(item => " ++
          fullPropertyAccess ++ " !== null);"
        description := "Filter items where " ++ propertyName ++ " exists" }
  let forEachEx : CodeExample :=
    { title := "🔄 forEach Iteration"
      code := arrayAccessPath ++ ".forEach(item => \x7b\n  console.log(" ++
        fullPropertyAccess ++ ");\n\x7d);"
      description := "Loop through and access " ++ propertyName }
  let findEx : CodeExample :=
    if isNumeric then
      { title := "🎲 Find First Match"
        code := "const found = " ++ arrayAccessPath ++ ".find(item => " ++
          fullPropertyAccess ++ " === " ++ numFallbackStr ++ ");"
        description := "Find first item where " ++ propertyName ++ " equals " ++
          numFallbackStr }
    else if isString then
      { title := "🎲 Find First Match"
        code := "const found = " ++ arrayAccessPath ++ ".find(item => " ++
          fullPropertyAccess ++ ".includes(\"search\"));"
        description := "Find first item where " ++ propertyName ++ " contains text" }
    else
      { title := "🎲 Find First Match"
        code := "const found = " ++ arrayAccessPath ++ ".find(item => " ++
          fullPropertyAccess ++ ");"
        description := "Find first item where " ++ propertyName ++ " is truthy" }
  let sumExs : List CodeExample :=
    if isNumeric then
      [{ title := "📊 Sum/Aggregate"
         code := "const total = " ++ arrayAccessPath ++ ".reduce((sum, item) => sum + " ++
           fullPropertyAccess ++ ", 0);"
         description := "Calculate total of all " ++ propertyName ++ " values" },
       { title := "📈 Min/Max Values"
         code := "const values = " ++ arrayAccessPath ++ ".map(item => " ++
           fullPropertyAccess ++ ");\nconst min = Math.min(...values);\nconst max = Math.max(...values);"
         description := "Find minimum and maximum " ++ propertyName }]
    else []
  let checkExs : List CodeExample :=
    if isNumeric then
      [{ title := "✅ Check Conditions"
         code := "const hasAny = " ++ arrayAccessPath ++ ".some(item => " ++
           fullPropertyAccess ++ " > " ++ numFallbackStr ++ ");\nconst hasAll = " ++
           arrayAccessPath ++ ".every(item => " ++ fullPropertyAccess ++ " > 0);"
         description := "Check if some/all items meet condition" }]
    else if isBoolean then
      [{ title := "✅ Check Conditions"
         code := "const hasAny = " ++ arrayAccessPath ++ ".some(item => " ++
           fullPropertyAccess ++ ");\nconst hasAll = " ++ arrayAccessPath ++
           ".every(item => " ++ fullPropertyAccess ++ ");"
         description := "Check if some/all " ++ propertyName ++ " are true" }]
    else []
  let sortExs : List CodeExample :=
    if isNumeric then
      [{ title := "🔀 Sort by Property"
         code := "const sorted = [..." ++ arrayAccessPath ++ "].sort((a, b) => a" ++
           pap ++ " - b" ++ pap ++ ");"
         description := "Sort items by " ++ propertyName ++ " (ascending)" }]
    else if isString then
      [{ title := "🔀 Sort by Property"
         code := "const sorted = [..." ++ arrayAccessPath ++ "].sort((a, b) => \n  a" ++
           pap ++ ".localeCompare(b" ++ pap ++ ")\n);"
         description := "Sort items by " ++ propertyName ++ " alphabetically" }]
    else []
  [directAccess, mapAll, filterEx, forEachEx, findEx] ++ sumExs ++ checkExs ++ sortExs

/-- `CodeHelper.generateArrayExamples`. -/
def generateArrayExamples (pathInfo : AccessPath) (currentValue : JsonVal) :
    List CodeExample :=
  let arrayLength : Nat := match currentValue with | .arr xs => xs.length | _ => 0
  [{ title := "🔄 Map Over Array"
     code := "const mapped = " ++ pathInfo.dot ++
       ".map(item => \x7b\n  // Process each item\n  return item;\n\x7d);"
     description := "Transform all " ++ toString arrayLength ++ " items" },
   { title := "🔍 Filter Array"
     code := "const filtered = " ++ pathInfo.dot ++
       ".filter(item => \x7b\n  // Return true to keep item\n  return condition;\n\x7d);"
     description := "Filter items based on condition" },
   { title := "📊 Reduce Array"
     code := "const result = " ++ pathInfo.dot ++
       ".reduce((acc, item) => \x7b\n  // Accumulate values\n  return acc + item;\n\x7d, 0);"
     description := "Aggregate array values" },
   { title := "🎲 Access First/Last"
     code := "const first = " ++ pathInfo.dot ++ "[0];\nconst last = " ++ pathInfo.dot ++
       "[" ++ toString ((arrayLength : Int) - 1) ++ "];"
     description := "Get first or last element" }]

/-- `CodeHelper.generateObjectExamples`. -/
def generateObjectExamples (pathInfo : AccessPath) (currentValue : JsonVal) :
    List CodeExample :=
  let keys : List String :=
    match currentValue with
    | .obj fs => fs.map Prod.fst
    | _ => []
  if keys.length > 0 then
    [{ title := "🔑 Get All Keys"
       code := "const keys = Object.keys(" ++ pathInfo.dot ++ ");\n// [" ++
         String.intercalate ", " ((keys.take 3).map (fun k => "\"" ++ k ++ "\"")) ++
         (if keys.length > 3 then ", ..." else "") ++ "]"
       description := "Extract all " ++ toString keys.length ++ " property names" },
     { title := "📋 Get All Values"
       code := "const values = Object.values(" ++ pathInfo.dot ++ ");"
       description := "Extract all property values" },
     { title := "🔄 Iterate Entries"
       code := "Object.entries(" ++ pathInfo.dot ++
         ").forEach(([key, value]) => \x7b\n  console.log(key, value);\n\x7d);"
       description := "Loop through key-value pairs" }]
  else []

/-- `CodeHelper.generateDestructuringExample`. -/
def generateDestructuringExample (currentPath : List Seg) : CodeExample :=
  let parentPath := currentPath.dropLast
  let parentPathInfo := generateAccessPath parentPath
  let key :=
    match currentPath.getLast? with
    | some s => segToString s
    | none => "undefined"
  { title := "📦 Destructuring"
    code := "const \x7b " ++ key ++ " \x7d = " ++ parentPathInfo.dot ++ ";"
    description := "Extract property directly" }

/-- `CodeHelper.generateRootCode`. -/
def generateRootCode : List CodeExample :=
  [{ title := "📄 Root Object"
     code := "const data = /* your JSON data */;"
     description := "Click on any key to see access examples" }]

/-- The non-array branch of `CodeHelper.generateCode`: basic notations,
type-specific examples, optional destructuring, and the default-value
fallback. -/
def generateStandardCode (currentPath : List Seg) (currentValue : JsonVal) :
    List CodeExample :=
  let pathInfo := generateAccessPath currentPath
  let valueType := getType currentValue
  [{ title := "🎯 Dot Notation"
     code := "const value = " ++ pathInfo.dot ++ ";"
     description := "Standard JavaScript property access" },
   { title := "📦 Bracket Notation"
     code := "const value = " ++ pathInfo.bracket ++ ";"
     description := "Safe for keys with special characters" },
   { title := "✅ Optional Chaining (ES2020)"
     code := "const value = " ++ pathInfo.optional ++ ";"
     description := "Prevents errors if path doesn" ++ sq ++ "t exist" }] ++
  (if valueType = "array" then generateArrayExamples pathInfo currentValue
   else if valueType = "object" then generateObjectExamples pathInfo currentValue
   else []) ++
  (if currentPath.length > 1 then [generateDestructuringExample currentPath] else []) ++
  [{ title := "🛡️ With Default Value"
     code := "const value = " ++ pathInfo.optional ++ " ?? " ++ sq ++ "default" ++ sq ++ ";"
     description := "Provide fallback if undefined/null" }]

/-- `CodeHelper.generateCode`: root → the generic placeholder; a selection
inside array elements with segments left after the index → the array-context
example set; otherwise the standard access examples. -/
def generateCode (currentPath : List Seg) (currentValue : JsonVal)
    (currentKey : Option Seg) (jsonData : Option JsonVal) : List CodeExample :=
  if currentPath = [] then generateRootCode
  else
    let arrayContext :=
      match jsonData with
      | some d => if jsTruthy d then detectArrayContext d currentPath else none
      | none => none
    match arrayContext with
    | some ctx =>
      if ctx.propertyPath.length > 0 then
        generatePropertyInArrayExamples ctx currentValue currentKey
      else generateStandardCode currentPath currentValue
    | none => generateStandardCode currentPath currentValue

/-! ## Counting helpers and lemmas -/

mutual
/-- Total number of nodes of a value, unbounded: every leaf and every branch
counts once. -/
def sizeJ : JsonVal → Nat
  | .arr es => 1 + sizeJArr es
  | .obj ms => 1 + sizeJObj ms
  | _ => 1

/-- `sizeJ` summed over an array's elements. -/
def sizeJArr : List JsonVal → Nat
  | [] => 0
  | e :: es => sizeJ e + sizeJArr es

/-- `sizeJ` summed over an object's field values. -/
def sizeJObj : List (String × JsonVal) → Nat
  | [] => 0
  | (_, v) :: ms => sizeJ v + sizeJObj ms
end

mutual
/-- Number of leaves (nulls and primitives) of a value, unbounded. -/
def leavesJ : JsonVal → Nat
  | .arr es => leavesJArr es
  | .obj ms => leavesJObj ms
  | _ => 1

/-- `leavesJ` summed over an array's elements. -/
def leavesJArr : List JsonVal → Nat
  | [] => 0
  | e :: es => leavesJ e + leavesJArr es

/-- `leavesJ` summed over an object's field values. -/
def leavesJObj : List (String × JsonVal) → Nat
  | [] => 0
  | (_, v) :: ms => leavesJ v + leavesJObj ms
end

theorem jdepthArr_mem : ∀ {es : List JsonVal} {e}, e ∈ es → 1 + jdepth e ≤ jdepthArr es
  | e' :: es, e, h => by
    rcases List.mem_cons.mp h with h | h
    · subst h; simp [jdepthArr, Nat.le_max_left]
    · calc 1 + jdepth e ≤ jdepthArr es := jdepthArr_mem h
        _ ≤ _ := by simp [jdepthArr, Nat.le_max_right]

theorem jdepthObj_mem : ∀ {ms : List (String × JsonVal)} {kv}, kv ∈ ms →
    1 + jdepth kv.2 ≤ jdepthObj ms
  | (k', v') :: ms, kv, h => by
    rcases List.mem_cons.mp h with h | h
    · subst h; simp [jdepthObj, Nat.le_max_left]
    · calc 1 + jdepth kv.2 ≤ jdepthObj ms := jdepthObj_mem h
        _ ≤ _ := by simp [jdepthObj, Nat.le_max_right]

mutual
theorem countNodesGo_size : ∀ (v : JsonVal) (d : Nat), d + jdepth v ≤ 100 →
    countNodesGo v d = sizeJ v
  | v, d, h => by
    have hd : ¬ d > 100 := by omega
    cases v with
    | arr es =>
      rw [countNodesGo, if_neg hd]
      have : countNodesList es (d + 1) = sizeJArr es :=
        countNodesList_size es (d + 1) (fun e he => by
          have := jdepthArr_mem he
          simp [jdepth] at h
          omega)
      rw [this]; rfl
    | obj ms =>
      rw [countNodesGo, if_neg hd]
      have : countNodesFields ms (d + 1) = sizeJObj ms :=
        countNodesFields_size ms (d + 1) (fun kv hkv => by
          have := jdepthObj_mem hkv
          simp [jdepth] at h
          omega)
      rw [this]; rfl
    | null => simp [countNodesGo, hd, sizeJ]
    | bool b => simp [countNodesGo, hd, sizeJ]
    | num q => simp [countNodesGo, hd, sizeJ]
    | str s => simp [countNodesGo, hd, sizeJ]

theorem countNodesList_size : ∀ (es : List JsonVal) (d : Nat),
    (∀ e ∈ es, d + jdepth e ≤ 100) → countNodesList es d = sizeJArr es
  | [], _, _ => rfl
  | e :: es, d, h => by
    rw [countNodesList, sizeJArr,
      countNodesGo_size e d (h e (List.mem_cons_self e es)),
      countNodesList_size es d (fun x hx => h x (List.mem_cons_of_mem _ hx))]

theorem countNodesFields_size : ∀ (ms : List (String × JsonVal)) (d : Nat),
    (∀ kv ∈ ms, d + jdepth kv.2 ≤ 100) → countNodesFields ms d = sizeJObj ms
  | [], _, _ => rfl
  | (k, v) :: ms, d, h => by
    rw [countNodesFields, sizeJObj,
      countNodesGo_size v d (h (k, v) (List.mem_cons_self _ ms)),
      countNodesFields_size ms d (fun x hx => h x (List.mem_cons_of_mem _ hx))]
end

mutual
theorem statsTraverse_totalNodes : ∀ (v : JsonVal) (d : Nat), d + jdepth v ≤ 100 →
    (statsTraverse v d).totalNodes = sizeJ v
  | v, d, h => by
    have hd : ¬ d > 100 := by omega
    cases v with
    | arr es =>
      rw [statsTraverse, if_neg hd]
      have : (statsList es (d + 1)).totalNodes = sizeJArr es :=
        statsList_totalNodes es (d + 1) (fun e he => by
          have := jdepthArr_mem he
          simp [jdepth] at h
          omega)
      simp [statsMerge, this, sizeJ]
    | obj ms =>
      rw [statsTraverse, if_neg hd]
      have : (statsFields ms (d + 1)).totalNodes = sizeJObj ms :=
        statsFields_totalNodes ms (d + 1) (fun kv hkv => by
          have := jdepthObj_mem hkv
          simp [jdepth] at h
          omega)
      simp [statsMerge, this, sizeJ]
    | null => simp [statsTraverse, hd, sizeJ]
    | bool b => simp [statsTraverse, hd, sizeJ]
    | num q => simp [statsTraverse, hd, sizeJ]
    | str s => simp [statsTraverse, hd, sizeJ]

theorem statsList_totalNodes : ∀ (es : List JsonVal) (d : Nat),
    (∀ e ∈ es, d + jdepth e ≤ 100) → (statsList es d).totalNodes = sizeJArr es
  | [], _, _ => rfl
  | e :: es, d, h => by
    rw [statsList, sizeJArr]
    simp [statsMerge,
      statsTraverse_totalNodes e d (h e (List.mem_cons_self e es)),
      statsList_totalNodes es d (fun x hx => h x (List.mem_cons_of_mem _ hx))]

theorem statsFields_totalNodes : ∀ (ms : List (String × JsonVal)) (d : Nat),
    (∀ kv ∈ ms, d + jdepth kv.2 ≤ 100) → (statsFields ms d).totalNodes = sizeJObj ms
  | [], _, _ => rfl
  | (k, v) :: ms, d, h => by
    rw [statsFields, sizeJObj]
    simp [statsMerge,
      statsTraverse_totalNodes v d (h (k, v) (List.mem_cons_self _ ms)),
      statsFields_totalNodes ms d (fun x hx => h x (List.mem_cons_of_mem _ hx))]
end

mutual
theorem statsTraverse_leaves : ∀ (v : JsonVal) (d : Nat), d + jdepth v ≤ 100 →
    (statsTraverse v d).primitives + (statsTraverse v d).nulls = leavesJ v
  | v, d, h => by
    have hd : ¬ d > 100 := by omega
    cases v with
    | arr es =>
      rw [statsTraverse, if_neg hd]
      have : (statsList es (d + 1)).primitives + (statsList es (d + 1)).nulls =
          leavesJArr es :=
        statsList_leaves es (d + 1) (fun e he => by
          have := jdepthArr_mem he
          simp [jdepth] at h
          omega)
      simp [statsMerge, leavesJ]
      omega
    | obj ms =>
      rw [statsTraverse, if_neg hd]
      have : (statsFields ms (d + 1)).primitives + (statsFields ms (d + 1)).nulls =
          leavesJObj ms :=
        statsFields_leaves ms (d + 1) (fun kv hkv => by
          have := jdepthObj_mem hkv
          simp [jdepth] at h
          omega)
      simp [statsMerge, leavesJ]
      omega
    | null => simp [statsTraverse, hd, leavesJ]
    | bool b => simp [statsTraverse, hd, leavesJ]
    | num q => simp [statsTraverse, hd, leavesJ]
    | str s => simp [statsTraverse, hd, leavesJ]

theorem statsList_leaves : ∀ (es : List JsonVal) (d : Nat),
    (∀ e ∈ es, d + jdepth e ≤ 100) →
    (statsList es d).primitives + (statsList es d).nulls = leavesJArr es
  | [], _, _ => rfl
  | e :: es, d, h => by
    have h1 := statsTraverse_leaves e d (h e (List.mem_cons_self e es))
    have h2 := statsList_leaves es d (fun x hx => h x (List.mem_cons_of_mem _ hx))
    rw [statsList, leavesJArr]
    simp [statsMerge]
    omega

theorem statsFields_leaves : ∀ (ms : List (String × JsonVal)) (d : Nat),
    (∀ kv ∈ ms, d + jdepth kv.2 ≤ 100) →
    (statsFields ms d).primitives + (statsFields ms d).nulls = leavesJObj ms
  | [], _, _ => rfl
  | (k, v) :: ms, d, h => by
    have h1 := statsTraverse_leaves v d (h (k, v) (List.mem_cons_self _ ms))
    have h2 := statsFields_leaves ms d (fun x hx => h x (List.mem_cons_of_mem _ hx))
    rw [statsFields, leavesJObj]
    simp [statsMerge]
    omega
end

mutual
theorem flattenGo_length : ∀ (v : JsonVal) (p : List Seg) (d maxD : Nat),
    d + jdepth v ≤ maxD → (flattenGo v p d maxD).length = leavesJ v
  | v, p, d, maxD, h => by
    have hd : ¬ d > maxD := by omega
    cases v with
    | arr es =>
      rw [flattenGo, if_neg hd]
      exact flattenList_length es p 0 (d + 1) maxD (fun e he => by
        have := jdepthArr_mem he
        simp [jdepth] at h
        omega)
    | obj ms =>
      rw [flattenGo, if_neg hd]
      exact flattenFields_length ms p (d + 1) maxD (fun kv hkv => by
        have := jdepthObj_mem hkv
        simp [jdepth] at h
        omega)
    | null => simp [flattenGo, hd, leavesJ]
    | bool b => simp [flattenGo, hd, leavesJ]
    | num q => simp [flattenGo, hd, leavesJ]
    | str s => simp [flattenGo, hd, leavesJ]

theorem flattenList_length : ∀ (es : List JsonVal) (p : List Seg) (i d maxD : Nat),
    (∀ e ∈ es, d + jdepth e ≤ maxD) →
    (flattenList es p i d maxD).length = leavesJArr es
  | [], _, _, _, _, _ => rfl
  | e :: es, p, i, d, maxD, h => by
    rw [flattenList, leavesJArr]
    simp [flattenGo_length e _ d maxD (h e (List.mem_cons_self e es)),
      flattenList_length es p (i + 1) d maxD (fun x hx => h x (List.mem_cons_of_mem _ hx))]

theorem flattenFields_length : ∀ (ms : List (String × JsonVal)) (p : List Seg) (d maxD : Nat),
    (∀ kv ∈ ms, d + jdepth kv.2 ≤ maxD) →
    (flattenFields ms p d maxD).length = leavesJObj ms
  | [], _, _, _, _ => rfl
  | (k, v) :: ms, p, d, maxD, h => by
    rw [flattenFields, leavesJObj]
    simp [flattenGo_length v _ d maxD (h (k, v) (List.mem_cons_self _ ms)),
      flattenFields_length ms p d maxD (fun x hx => h x (List.mem_cons_of_mem _ hx))]
end

theorem lookupField_of_nodup {ms : List (String × JsonVal)} {k : String} {v : JsonVal}
    (hnd : (ms.map Prod.fst).Nodup) (hmem : (k, v) ∈ ms) : lookupField ms k = some v := by
  induction ms with
  | nil => cases hmem
  | cons kv rest ih =>
    obtain ⟨k', v'⟩ := kv
    rcases List.mem_cons.mp hmem with h | h
    · injection h with h1 h2
      subst h1; subst h2
      simp [lookupField]
    · have hk : k' ≠ k := by
        intro hkk
        subst hkk
        have : k' ∈ rest.map Prod.fst := List.mem_map.mpr ⟨(k', v), h, rfl⟩
        exact (List.nodup_cons.mp hnd).1 this
      simp [lookupField, hk]
      exact ih (List.nodup_cons.mp hnd).2 h

theorem lookupField_eq_none_of_not_mem {ms : List (String × JsonVal)} {k : String}
    (h : k ∉ ms.map Prod.fst) : lookupField ms k = none := by
  induction ms with
  | nil => rfl
  | cons kv rest ih =>
    obtain ⟨k', v'⟩ := kv
    simp only [List.map_cons, List.mem_cons] at h
    push_neg at h
    rw [lookupField, if_neg (fun hkk => h.1 hkk.symm)]
    exact ih h.2

mutual
theorem flattenGo_resolve : ∀ (v : JsonVal) (p : List Seg) (d maxD : Nat),
    jsonWF v = true → ∀ e ∈ flattenGo v p d maxD,
    ∃ rel, e.path = p ++ rel ∧ resolveV v rel = some e.value
  | v, p, d, maxD, hwf, e, he => by
    simp only [flattenGo.eq_def] at he
    by_cases hd : d > maxD
    · rw [if_pos hd] at he
      cases he
    · rw [if_neg hd] at he
      cases v with
      | arr es =>
        obtain ⟨j, u, rel, hget, hpath, hres⟩ :=
          flattenList_resolve es p 0 (d + 1) maxD (by simpa [jsonWF] using hwf) e he
        refine ⟨Seg.idx (0 + j) :: rel, hpath, ?_⟩
        have hget' : es.get? (0 + j) = some u := by simpa using hget
        simp only [resolveV]
        rw [hget']
        simpa using hres
      | obj ms =>
        have hwf' := hwf
        simp [jsonWF, Bool.and_eq_true] at hwf'
        obtain ⟨k, u, rel, hlook, hpath, hres⟩ :=
          flattenFields_resolve ms p (d + 1) maxD hwf'.2 hwf'.1 e he
        exact ⟨Seg.key k :: rel, hpath, by simp [resolveV, hlook, hres]⟩
      | null =>
        simp at he
        exact ⟨[], by simp [he], by simp [he, resolveV]⟩
      | bool b =>
        simp at he
        exact ⟨[], by simp [he], by simp [he, resolveV]⟩
      | num q =>
        simp at he
        exact ⟨[], by simp [he], by simp [he, resolveV]⟩
      | str s =>
        simp at he
        exact ⟨[], by simp [he], by simp [he, resolveV]⟩

theorem flattenList_resolve : ∀ (es : List JsonVal) (p : List Seg) (i d maxD : Nat),
    jsonWFArr es = true → ∀ e ∈ flattenList es p i d maxD,
    ∃ j u rel, es.get? j = some u ∧ e.path = p ++ Seg.idx (i + j) :: rel ∧
      resolveV u rel = some e.value
  | [], _, _, _, _, _, e, he => by cases he
  | x :: es, p, i, d, maxD, hwf, e, he => by
    simp [jsonWFArr, Bool.and_eq_true] at hwf
    rw [flattenList] at he
    rcases List.mem_append.mp he with h | h
    · obtain ⟨rel, hpath, hres⟩ := flattenGo_resolve x (p ++ [Seg.idx i]) d maxD hwf.1 e h
      exact ⟨0, x, rel, rfl, by simpa using hpath, hres⟩
    · obtain ⟨j, u, rel, hget, hpath, hres⟩ :=
        flattenList_resolve es p (i + 1) d maxD hwf.2 e h
      refine ⟨j + 1, u, rel, by simpa using hget,
        by rw [hpath]; congr 3; omega, hres⟩

theorem flattenFields_resolve : ∀ (ms : List (String × JsonVal)) (p : List Seg)
    (d maxD : Nat), jsonWFObj ms = true → (ms.map Prod.fst).Nodup →
    ∀ e ∈ flattenFields ms p d maxD,
    ∃ k u rel, lookupField ms k = some u ∧ e.path = p ++ Seg.key k :: rel ∧
      resolveV u rel = some e.value
  | [], _, _, _, _, _, e, he => by cases he
  | (k0, v0) :: ms, p, d, maxD, hwf, hnd, e, he => by
    simp [jsonWFObj, Bool.and_eq_true] at hwf
    rw [flattenFields] at he
    rcases List.mem_append.mp he with h | h
    · obtain ⟨rel, hpath, hres⟩ := flattenGo_resolve v0 (p ++ [Seg.key k0]) d maxD hwf.1 e h
      exact ⟨k0, v0, rel, by simp [lookupField], by simpa using hpath, hres⟩
    · obtain ⟨k, u, rel, hlook, hpath, hres⟩ :=
        flattenFields_resolve ms p d maxD hwf.2 (List.nodup_cons.mp hnd).2 e h
      have hk0 : k0 ≠ k := by
        intro hkk
        subst hkk
        have : lookupField ms k0 ≠ none := by simp [hlook]
        have hmem : k0 ∈ ms.map Prod.fst := by
          by_contra habs
          exact this (lookupField_eq_none_of_not_mem habs)
        exact (List.nodup_cons.mp hnd).1 hmem
      exact ⟨k, u, rel, by simp [lookupField, hk0, hlook], hpath, hres⟩
end

theorem resolveV_getValueAtPath : ∀ (v : JsonVal) (path : List Seg) (w : JsonVal),
    resolveV v path = some w → getValueAtPathGo (some v) path = .ok (some w)
  | v, [], w, h => by
    simp [resolveV] at h
    simp [getValueAtPathGo, h]
  | v, s :: rest, w, h => by
    cases v with
    | obj fs =>
      cases s with
      | key k =>
        simp [resolveV] at h
        obtain ⟨u, hu, hres⟩ := Option.bind_eq_some.mp h
        simp only [getValueAtPathGo, jsMember, hu]
        exact resolveV_getValueAtPath u rest w hres
      | idx n => simp [resolveV] at h
    | arr xs =>
      cases s with
      | idx n =>
        simp [resolveV] at h
        obtain ⟨u, hu, hres⟩ := Option.bind_eq_some.mp h
        simp only [getValueAtPathGo, jsMember, List.get?_eq_getElem?, hu]
        exact resolveV_getValueAtPath u rest w hres
      | key k => simp [resolveV] at h
    | null => simp [resolveV] at h
    | bool b => simp [resolveV] at h
    | num q => simp [resolveV] at h
    | str t => simp [resolveV] at h

/-- C1 (counterexample): claim C1 is false as stated — `flatten` emits one
entry per *leaf* only, never for branch nodes, so on `[1]` (nesting depth 1,
well within the flatten bound of 10) it produces 1 entry while
`statistics` reports `totalNodes = 2`. -/
theorem C1_flatten_counterexample :
    jdepth (JsonVal.arr [.num 1]) ≤ 10 ∧
    (flatten (JsonVal.arr [.num 1])).length ≠
      (getStatistics (JsonVal.arr [.num 1])).totalNodes := by
  constructor
  · decide
  · decide

/-- C1 (amended): claim C1, amended — for every well-formed JSON value whose
nesting depth does not exceed the flatten depth bound (10), `flatten(value)`
produces exactly one entry per *leaf* node (i.e.
`statistics(value).primitives + statistics(value).nulls` entries, not
`totalNodes`, which also counts branch nodes) in pre-order, and resolving each
entry's path against the value yields the entry's recorded value (shown via
the repository's own `getValueAtPath`, which succeeds with that value). -/
theorem C1_flatten_amended (v : JsonVal) (hwf : jsonWF v = true)
    (hd : jdepth v ≤ 10) :
    (flatten v).length =
      (getStatistics v).primitives + (getStatistics v).nulls ∧
    ∀ e ∈ flatten v, getValueAtPath v e.path = .ok (some e.value) := by
  constructor
  · rw [flatten, getStatistics, flattenGo_length v [] 0 10 (by omega),
      statsTraverse_leaves v 0 (by omega)]
  · intro e he
    obtain ⟨rel, hpath, hres⟩ := flattenGo_resolve v [] 0 10 hwf e he
    have : e.path = rel := by simpa using hpath
    rw [getValueAtPath, this]
    exact resolveV_getValueAtPath v rel e.value hres

/-- Witness for the amended C1 at `{"a": [1, null], "b": "x"}`. -/
theorem C1_flatten_amended_witness :
    (flatten (JsonVal.obj [("a", .arr [.num 1, .null]), ("b", .str "x")])).length =
      (getStatistics (JsonVal.obj [("a", .arr [.num 1, .null]), ("b", .str "x")])).primitives +
      (getStatistics (JsonVal.obj [("a", .arr [.num 1, .null]), ("b", .str "x")])).nulls ∧
    getValueAtPath (JsonVal.obj [("a", .arr [.num 1, .null]), ("b", .str "x")])
      [Seg.key "a", Seg.idx 1] = .ok (some JsonVal.null) := by
  have h := C1_flatten_amended
    (JsonVal.obj [("a", .arr [.num 1, .null]), ("b", .str "x")]) (by decide) (by decide)
  exact ⟨h.1, h.2 ⟨[Seg.key "a", Seg.idx 1], JsonVal.null, "null"⟩ (by decide)⟩

/-- C2: claim C2 is right about the intended contract but the code violates
it — `PrettierVisualizer.getValueAtPath` performs `current = current[key]`
with no guard, so on the document `{"a": null}` with path `["a", "b"]` the
second step reads a property of `null` and throws a `TypeError` instead of
returning a non-fatal miss; the spec's own `resolve` contract (modelled by
`resolveV`) returns "not found" on the same input. -/
theorem C2_getValueAtPath_throws :
    getValueAtPath (JsonVal.obj [("a", .null)]) [Seg.key "a", Seg.key "b"] =
      .error () ∧
    resolveV (JsonVal.obj [("a", .null)]) [Seg.key "a", Seg.key "b"] = none := by
  constructor
  · rfl
  · rfl

/-- C10: claim C10 — for every JSON value whose nesting depth is at most 100
(the parser's depth bound), the standalone node counter `countNodes(value)`
returns exactly `getStatistics(value).totalNodes`: under the shared bound
neither traversal prunes anything and both count every leaf and branch node
once. -/
theorem C10_countNodes_eq_totalNodes (v : JsonVal) (h : jdepth v ≤ 100) :
    countNodes v = (getStatistics v).totalNodes := by
  rw [countNodes, getStatistics, countNodesGo_size v 0 (by omega),
    statsTraverse_totalNodes v 0 (by omega)]

/-- Witness for C10 at a concrete value of depth 2. -/
theorem C10_countNodes_eq_totalNodes_witness :
    jdepth (JsonVal.obj [("a", .arr [.num 1, .null]), ("b", .str "x")]) ≤ 100 ∧
    countNodes (JsonVal.obj [("a", .arr [.num 1, .null]), ("b", .str "x")]) =
      (getStatistics (JsonVal.obj [("a", .arr [.num 1, .null]), ("b", .str "x")])).totalNodes :=
  ⟨by decide, C10_countNodes_eq_totalNodes _ (by decide)⟩

/-- C6: claim C6 — repair of `[1, 2, 3,]` removes the trailing comma in
Phase A (logging it), the result `[1, 2, 3]` parses, and its statistics
report `totalNodes = 4`, `maxDepth = 1`, `arrays = 1`. -/
theorem C6_trailing_comma_scenario :
    repair "[1, 2, 3,]" =
      ⟨"[1, 2, 3]", ["Removed 1 trailing comma(s)"]⟩ ∧
    parse "[1, 2, 3]" =
      { success := true, data := some (.arr [.num 1, .num 2, .num 3]),
        error := none, line := none, column := none } ∧
    (getStatistics (.arr [.num 1, .num 2, .num 3])).totalNodes = 4 ∧
    (getStatistics (.arr [.num 1, .num 2, .num 3])).maxDepth = 1 ∧
    (getStatistics (.arr [.num 1, .num 2, .num 3])).arrays = 1 := by
  refine ⟨by decide, by decide, by decide, by decide, by decide⟩

/-- C7 (counterexample): claim C7 is false as stated — on `[1,,]` the parser
fails with a recoverable offset (position 3) and the outcome does carry the
1-based line, but there is no column: `JSONParser.parse` never produces a
`column` property (`getErrorLine` returns only the line count). -/
theorem C7_no_column_counterexample :
    (parse "[1,,]").success = false ∧
    (parse "[1,,]").line = some 1 ∧
    (parse "[1,,]").column = none := by
  refine ⟨by decide, by decide, by decide⟩

/-- C7 (amended): claim C7, amended — when the Structural Parser fails with a
recoverable absolute character offset `p`, the outcome includes the 1-based
line number obtained by counting newline characters among the first `p`
characters of the (untrimmed) input; no column number is ever included; when
no offset is recoverable, the line (like the column) is absent. -/
theorem C7_error_line_amended (s : String) (e : JsError)
    (h0 : ¬ s = "") (h1 : ¬ (jsTrim s).length = 0)
    (h2 : jsonParse (jsTrim s) = .error e) :
    parse s = { success := false
                error := some ("Parse error: " ++ errMsg e)
                line := e.pos.map (fun p => ((s.data.take p).count '\n') + 1)
                column := none } := by
  rw [parse, if_neg h0]
  simp only [if_neg h1, h2]
  cases hp : e.pos <;> simp [getErrorLine, hp]

/-- Witness for the amended C7 at the two-line input `[1,\n,]` (offset 4,
line 2) . -/
theorem C7_error_line_amended_witness :
    parse "[1,\n,]" =
      { success := false
        error := some ("Parse error: " ++ errMsg ⟨.unexpectedToken ',', some 4⟩)
        line := some 2
        column := none } := by
  have h := C7_error_line_amended "[1,\n,]" ⟨.unexpectedToken ',', some 4⟩
    (by decide) (by decide) (by rfl)
  exact h

/-- C9 (counterexample): claim C9 is false as stated — the `path.join('.')`
node key is not injective: a key containing the separator collides with the
corresponding nested keys, a numeric index collides with its string form, and
the single key `"root"` collides with the root sentinel. -/
theorem C9_nodeId_collision_counterexample :
    (nodeId [Seg.key "a.b"] = nodeId [Seg.key "a", Seg.key "b"] ∧
      [Seg.key "a.b"] ≠ [Seg.key "a", Seg.key "b"]) ∧
    (nodeId [Seg.idx 0] = nodeId [Seg.key "0"] ∧
      [Seg.idx 0] ≠ [Seg.key "0"]) ∧
    (nodeId [Seg.key "root"] = nodeId [] ∧ [Seg.key "root"] ≠ ([] : List Seg)) := by
  refine ⟨⟨by decide, by decide⟩, ⟨by decide, by decide⟩, ⟨by decide, by decide⟩⟩

theorem intercalate_go_data (s : String) : ∀ (as : List String) (acc : String),
    (String.intercalate.go acc s as).data =
      acc.data ++ (as.map (fun a => s.data ++ a.data)).flatten
  | [], acc => by simp [String.intercalate.go]
  | a :: as, acc => by
    rw [String.intercalate.go, intercalate_go_data s as (acc ++ s ++ a)]
    simp [String.data_append, List.append_assoc]

theorem listIntercalate_cons {α : Type} (sep : List α) (a : List α) (as : List (List α)) :
    List.intercalate sep (a :: as) = a ++ (as.map (fun x => sep ++ x)).flatten := by
  induction as generalizing a with
  | nil => simp [List.intercalate, List.intersperse]
  | cons b bs ih =>
    have hb := ih b
    simp only [List.intercalate, List.intersperse] at hb ⊢
    simp [hb, List.append_assoc]

theorem intercalate_data (s : String) (l : List String) :
    (String.intercalate s l).data = List.intercalate s.data (l.map String.data) := by
  cases l with
  | nil => simp [String.intercalate, List.intercalate, List.intersperse]
  | cons a as =>
    rw [String.intercalate, intercalate_go_data s as a, List.map_cons, listIntercalate_cons,
      List.map_map]
    rfl

theorem keyDatas_inj : ∀ (p q : List Seg),
    (∀ s ∈ p, ∃ k, s = Seg.key k) → (∀ s ∈ q, ∃ k, s = Seg.key k) →
    p.map (fun s => (segToString s).data) = q.map (fun s => (segToString s).data) →
    p = q
  | [], [], _, _, _ => rfl
  | [], _ :: _, _, _, h => by cases h
  | _ :: _, [], _, _, h => by cases h
  | s :: p, t :: q, hp, hq, h => by
    obtain ⟨k, rfl⟩ := hp s (List.mem_cons_self s p)
    obtain ⟨k', rfl⟩ := hq t (List.mem_cons_self t q)
    simp only [List.map_cons, List.cons.injEq] at h
    have hk : k = k' := congrArg String.mk (by simpa [segToString] using h.1)
    rw [hk, keyDatas_inj p q (fun x hx => hp x (List.mem_cons_of_mem _ hx))
      (fun x hx => hq x (List.mem_cons_of_mem _ hx)) h.2]

/-- C9 (amended): claim C9, amended — the node-key serialization is a pure
function of the segment sequence (stable), but it is *not* injective in
general (see the counterexample); it distinguishes paths on the fragment of
paths made solely of object keys that contain no `'.'` separator, which is
where the tree/graph visualizers rely on it. -/
theorem C9_nodeId_injective_amended (p q : List Seg)
    (hp : ¬ p = []) (hq : ¬ q = [])
    (hps : ∀ s ∈ p, ∃ k, s = Seg.key k ∧ '.' ∉ k.data)
    (hqs : ∀ s ∈ q, ∃ k, s = Seg.key k ∧ '.' ∉ k.data)
    (h : nodeId p = nodeId q) : p = q := by
  rw [nodeId, if_neg hp, nodeId, if_neg hq] at h
  have hdata := congrArg String.data h
  rw [intercalate_data, intercalate_data] at hdata
  simp only [List.map_map] at hdata
  have hsplit := congrArg (List.splitOn '.') hdata
  rw [List.splitOn_intercalate _ '.'
      (by
        intro l hl
        simp only [List.mem_map, Function.comp] at hl
        obtain ⟨x, hx, rfl⟩ := hl
        obtain ⟨k, rfl, hk⟩ := hps x hx
        simpa [segToString] using hk)
      (by simpa using hp),
    List.splitOn_intercalate _ '.'
      (by
        intro l hl
        simp only [List.mem_map, Function.comp] at hl
        obtain ⟨x, hx, rfl⟩ := hl
        obtain ⟨k, rfl, hk⟩ := hqs x hx
        simpa [segToString] using hk)
      (by simpa using hq)] at hsplit
  exact keyDatas_inj p q (fun s hs => (hps s hs).imp (fun k hk => hk.1))
    (fun s hs => (hqs s hs).imp (fun k hk => hk.1)) (by simpa [Function.comp] using hsplit)

/-- Witness for the amended C9 on concrete dot-free key paths. -/
theorem C9_nodeId_injective_amended_witness :
    ([Seg.key "users", Seg.key "name"] : List Seg) = [Seg.key "users", Seg.key "name"] :=
  C9_nodeId_injective_amended [Seg.key "users", Seg.key "name"]
    [Seg.key "users", Seg.key "name"]
    (by decide) (by decide)
    (by intro s hs
        rcases List.mem_cons.mp hs with rfl | hs
        · exact ⟨"users", rfl, by decide⟩
        · rcases List.mem_cons.mp hs with rfl | hs
          · exact ⟨"name", rfl, by decide⟩
          · cases hs)
    (by intro s hs
        rcases List.mem_cons.mp hs with rfl | hs
        · exact ⟨"users", rfl, by decide⟩
        · rcases List.mem_cons.mp hs with rfl | hs
          · exact ⟨"name", rfl, by decide⟩
          · cases hs)
    rfl

theorem replaceCountSubGo_noMatch (pat repl : List Char) :
    ∀ (fuel : Nat) (s : List Char), ¬ (pat <:+: s) →
    replaceCountSubGo pat repl fuel s = (s, 0)
  | fuel, [], _ => by cases fuel <;> rfl
  | 0, c :: rest, _ => rfl
  | fuel + 1, c :: rest, h => by
    rw [replaceCountSubGo]
    have hnp : ¬ (pat ≠ [] ∧ pat.isPrefixOf (c :: rest)) := by
      rintro ⟨-, hpre⟩
      exact h (List.IsPrefix.isInfix (List.isPrefixOf_iff_prefix.mp hpre))
    rw [if_neg hnp, replaceCountSubGo_noMatch pat repl fuel rest
      (fun hinf => h (hinf.trans (List.suffix_cons c rest).isInfix))]

theorem fixTrailingCommasGo_zero : ∀ (fuel : Nat) (s : List Char),
    (fixTrailingCommasGo fuel s).2 = 0 → (fixTrailingCommasGo fuel s).1 = s
  | fuel, [], _ => by cases fuel <;> rfl
  | 0, c :: rest, _ => rfl
  | fuel + 1, c :: rest, h => by
    rw [fixTrailingCommasGo] at h ⊢
    by_cases hc : c = ','
    · rw [if_pos hc] at h ⊢
      cases hsp : splitWsClose rest with
      | some t =>
        obtain ⟨ws, cl, r⟩ := t
        rw [hsp] at h
        replace h : (fixTrailingCommasGo fuel r).2 + 1 = 0 := h
        exact absurd h (by omega)
      | none =>
        rw [hsp] at h
        replace h : (fixTrailingCommasGo fuel rest).2 = 0 := h
        show c :: (fixTrailingCommasGo fuel rest).1 = c :: rest
        rw [fixTrailingCommasGo_zero fuel rest h]
    · rw [if_neg hc] at h ⊢
      replace h : (fixTrailingCommasGo fuel rest).2 = 0 := h
      show c :: (fixTrailingCommasGo fuel rest).1 = c :: rest
      rw [fixTrailingCommasGo_zero fuel rest h]

/-- C3 (counterexample): claim C3 is false as stated — `"Object"` is valid
JSON (the string "Object"), yet Phase A rewrites it to `{}` and logs a
repair, so the repaired text parses to a *different* value and the repairs
log is neither empty nor a no-op. -/
theorem C3_repair_not_idempotent_counterexample :
    jsonParse "\"Object\"" = .ok (.str "Object") ∧
    repair "\"Object\"" =
      ⟨"\x7b\x7d", ["Replaced 1 instance(s) of \"Object\" with \x7b\x7d"]⟩ ∧
    jsonParse "\x7b\x7d" = .ok (.obj []) ∧
    JsonVal.str "Object" ≠ JsonVal.obj [] := by
  refine ⟨by rfl, by decide, by rfl, by decide⟩

/-- C3 (amended): claim C3, amended — repair is the identity (same text, same
parsed value, empty log) on every valid input that none of the Phase A
patterns match: no `[Object]` occurrence, no `"Object"` occurrence, and no
comma followed (across whitespace) by a closing bracket or brace.  Without
that proviso the claim is false: Phase A rewrites are not parse-aware and
fire inside valid JSON (see the counterexample). -/
theorem C3_repair_idempotent_amended (s : String) (v : JsonVal)
    (hok : jsonParse s = .ok v)
    (h1 : ¬ ("[Object]".data <:+: s.data))
    (h3 : ¬ ("\"Object\"".data <:+: s.data))
    (h4 : (fixTrailingCommas s.data).2 = 0) :
    repair s = ⟨s, []⟩ ∧ jsonParse (repair s).repaired = .ok v := by
  have h2 : ¬ ("[[Object]]".data <:+: s.data) := fun hinf =>
    h1 ((by decide : ("[Object]".data <:+: "[[Object]]".data)).trans hinf)
  have e1 : replaceCountSub "[Object]".data "\x7b\x7d".data s.data = (s.data, 0) :=
    replaceCountSubGo_noMatch _ _ _ _ h1
  have e2 : replaceCountSub "[[Object]]".data "[\x7b\x7d]".data s.data = (s.data, 0) :=
    replaceCountSubGo_noMatch _ _ _ _ h2
  have e3 : replaceCountSub "\"Object\"".data "\x7b\x7d".data s.data = (s.data, 0) :=
    replaceCountSubGo_noMatch _ _ _ _ h3
  have e4 : fixTrailingCommas s.data = (s.data, 0) := by
    have := fixTrailingCommasGo_zero s.data.length s.data h4
    rw [fixTrailingCommas]
    rw [fixTrailingCommas] at h4
    exact Prod.ext this h4
  have hfc : fixCommonPatterns s = (s, []) := by
    have hneg : ¬ ((s.data, (0 : Nat)).2 > 0) := by simp
    rw [fixCommonPatterns, e1]
    simp only [if_neg hneg]
    rw [e2]
    simp only [if_neg hneg]
    rw [e3]
    simp only [if_neg hneg]
    rw [e4]
    simp only [if_neg hneg]
    rfl
  have hfix : fixStructuralErrors s [] = (s, []) := by
    rw [fixStructuralErrors]
    show fixStructuralErrorsGo (9 + 1) s [] = (s, [])
    rw [fixStructuralErrorsGo, hok]
  refine ⟨?_, ?_⟩
  · rw [repair, hfc]
    simp only [hfix]
  · rw [repair, hfc]
    simp only [hfix]
    exact hok

/-- Witness for the amended C3 at the valid, pattern-free input `[1, 2]`. -/
theorem C3_repair_idempotent_amended_witness :
    repair "[1, 2]" = ⟨"[1, 2]", []⟩ ∧
    jsonParse (repair "[1, 2]").repaired = .ok (.arr [.num 1, .num 2]) :=
  C3_repair_idempotent_amended "[1, 2]" (.arr [.num 1, .num 2])
    (by rfl) (by decide) (by decide) (by decide)

/-- C4: claim C4 — every Phase B edit produced by `attemptFix` is anchored to
the reported position and single-character in scope: the result is the input
with exactly one character (`:` or `,`) inserted at `pos`, or the character at
`pos` deleted (`pos` is then in range, so a character really is removed), or a
backslash inserted before the quote at `pos`; and the four strategies — missing
colon, missing comma, duplicate adjacent character, unescaped quote in a
string — are tried in exactly that order, the first match winning.  Positions
come from parser error messages, hence the in-range hypothesis. -/
theorem C4_attemptFix_shape (str : String) (info : ErrorInfo)
    (hpos : info.position ≤ str.data.length) :
    ((msgHasExpectedColon info.message || msgHasAfterPropertyName info.message) = true →
      attemptFix str info = some ⟨insertAt str info.position ":",
        "Added missing " ++ sq ++ ":" ++ sq ++ " at position " ++ toString info.position⟩) ∧
    ((msgHasExpectedColon info.message || msgHasAfterPropertyName info.message) = false →
      (msgHasExpectedComma info.message || msgHasAfterPropertyValue info.message) = true →
      attemptFix str info = some ⟨insertAt str info.position ",",
        "Added missing " ++ sq ++ "," ++ sq ++ " at position " ++ toString info.position⟩) ∧
    ((msgHasExpectedColon info.message || msgHasAfterPropertyName info.message) = false →
      (msgHasExpectedComma info.message || msgHasAfterPropertyValue info.message) = false →
      (msgHasUnexpectedToken info.message && decide (0 < info.position) &&
        (str.data.get? (info.position - 1) == str.data.get? info.position)) = true →
      attemptFix str info = some ⟨removeAt str info.position,
        "Removed duplicate " ++ sq ++
          (match str.data.get? info.position with
           | some c => String.singleton c
           | none => "undefined") ++ sq ++ " at position " ++ toString info.position⟩ ∧
      info.position < str.data.length) ∧
    ((msgHasExpectedColon info.message || msgHasAfterPropertyName info.message) = false →
      (msgHasExpectedComma info.message || msgHasAfterPropertyValue info.message) = false →
      (msgHasUnexpectedToken info.message && decide (0 < info.position) &&
        (str.data.get? (info.position - 1) == str.data.get? info.position)) = false →
      ((str.data.get? info.position == some '"') &&
        (getContext str info.position).inString) = true →
      attemptFix str info = some ⟨escapeQuoteAt str info.position,
        "Escaped quote at position " ++ toString info.position⟩ ∧
      str.data.get? info.position = some '"') ∧
    ((msgHasExpectedColon info.message || msgHasAfterPropertyName info.message) = false →
      (msgHasExpectedComma info.message || msgHasAfterPropertyValue info.message) = false →
      (msgHasUnexpectedToken info.message && decide (0 < info.position) &&
        (str.data.get? (info.position - 1) == str.data.get? info.position)) = false →
      ((str.data.get? info.position == some '"') &&
        (getContext str info.position).inString) = false →
      attemptFix str info = none) := by
  refine ⟨?_, ?_, ?_, ?_, ?_⟩
  · intro h1
    simp only [attemptFix, h1, if_true]
  · intro h1 h2
    simp only [attemptFix, h1, h2, Bool.false_eq_true, if_false, if_true]
  · intro h1 h2 h3
    constructor
    · simp only [attemptFix, h1, h2, h3, Bool.false_eq_true, if_false, if_true]
    · simp only [Bool.and_eq_true, decide_eq_true_eq, beq_iff_eq] at h3
      rcases Nat.lt_or_ge info.position str.data.length with hlt | hge
      · exact hlt
      · exfalso
        have heq : info.position = str.data.length := le_antisymm hpos hge
        have hnone : str.data.get? info.position = none := by
          rw [List.get?_eq_none]
          omega
        have hsome : str.data.get? (info.position - 1) ≠ none := by
          rw [Ne, List.get?_eq_none]
          have := h3.1.2
          omega
        rw [hnone] at h3
        exact hsome h3.2
  · intro h1 h2 h3 h4
    constructor
    · simp only [attemptFix, h1, h2, h3, h4, Bool.false_eq_true, if_false, if_true]
    · simp only [Bool.and_eq_true, beq_iff_eq] at h4
      exact h4.1
  · intro h1 h2 h3 h4
    simp only [attemptFix, h1, h2, h3, h4, Bool.false_eq_true, if_false]

/-- Witness for C4: a missing-colon error at position 4 of `{"a" 1}` yields
the single-character insertion `{"a": 1}`. -/
theorem C4_attemptFix_shape_witness :
    attemptFix "\x7b\"a\" 1\x7d" ⟨4, .expectedColon⟩ =
      some ⟨"\x7b\"a\": 1\x7d",
        "Added missing " ++ sq ++ ":" ++ sq ++ " at position " ++ toString 4⟩ :=
  (C4_attemptFix_shape "\x7b\"a\" 1\x7d" ⟨4, .expectedColon⟩ (by decide)).1 (by decide)

/-! ## The Phase B trace vocabulary for C5 -/

/-- One legitimate Phase B step from text `t`: the text fails to parse, the
error carries a recoverable offset, and `attemptFix` applies producing `out`. -/
def stepOk (t : String) (out : FixResult) : Prop :=
  ∃ e info, jsonParse t = .error e ∧ parseErrorInfo e = some info ∧
    attemptFix t info = some out

/-- A whole Phase B trace is a chain of legitimate steps. -/
def chainOk : String → List FixResult → Prop
  | _, [] => True
  | t, f :: rest => stepOk t f ∧ chainOk f.result rest

/-- The text at the end of a trace. -/
def chainEnd (t : String) : List FixResult → String
  | [] => t
  | f :: rest => chainEnd f.result rest

/-- The three stopping conditions of the Phase B loop: the text parses, the
error carries no recoverable offset, or no strategy matches. -/
def repairStuck (t : String) : Prop :=
  (∃ v, jsonParse t = .ok v) ∨
  (∃ e, jsonParse t = .error e ∧ parseErrorInfo e = none) ∨
  (∃ e info, jsonParse t = .error e ∧ parseErrorInfo e = some info ∧
    attemptFix t info = none)

theorem fixStructuralErrorsGo_trace : ∀ (fuel : Nat) (t : String) (log : List String),
    ∃ trace : List FixResult,
      chainOk t trace ∧ trace.length ≤ fuel ∧
      fixStructuralErrorsGo fuel t log =
        (chainEnd t trace, log ++ trace.map FixResult.message) ∧
      (repairStuck (chainEnd t trace) ∨ trace.length = fuel)
  | 0, t, log => ⟨[], trivial, Nat.le_refl 0, by simp [fixStructuralErrorsGo, chainEnd], Or.inr rfl⟩
  | fuel + 1, t, log => by
    cases hp : jsonParse t with
    | ok v =>
      refine ⟨[], trivial, by simp, ?_, Or.inl (Or.inl ⟨v, hp⟩)⟩
      rw [fixStructuralErrorsGo]
      simp [hp, chainEnd]
    | error e =>
      cases hi : parseErrorInfo e with
      | none =>
        refine ⟨[], trivial, by simp, ?_, Or.inl (Or.inr (Or.inl ⟨e, hp, hi⟩))⟩
        rw [fixStructuralErrorsGo]
        simp [hp, hi, chainEnd]
      | some info =>
        cases hf : attemptFix t info with
        | none =>
          refine ⟨[], trivial, by simp, ?_, Or.inl (Or.inr (Or.inr ⟨e, info, hp, hi, hf⟩))⟩
          rw [fixStructuralErrorsGo]
          simp [hp, hi, hf, chainEnd]
        | some fix =>
          obtain ⟨trace, hchain, hlen, heq, hstop⟩ :=
            fixStructuralErrorsGo_trace fuel fix.result (log ++ [fix.message])
          refine ⟨fix :: trace, ⟨⟨e, info, hp, hi, hf⟩, hchain⟩, by simpa using hlen, ?_, ?_⟩
          · rw [fixStructuralErrorsGo]
            simp only [hp, hi, hf]
            rw [heq, chainEnd]
            simp
          · rcases hstop with h | h
            · exact Or.inl (by rwa [chainEnd])
            · exact Or.inr (by simpa using h)

/-- C5: claim C5 — for every input, `repair` terminates (it is a total
function of this model) and never raises; its Phase B loop performs some
trace of at most 10 legitimate error-driven edits, appends exactly one log
message per applied edit after the Phase A log, returns the final text of
that trace, and the trace ends either because the text parses, or because no
offset is recoverable, or because no strategy matches — or because the
10-iteration budget is exhausted. -/
theorem C5_phaseB_bounded (s : String) :
    ∃ trace : List FixResult,
      chainOk (fixCommonPatterns s).1 trace ∧ trace.length ≤ 10 ∧
      repair s = ⟨chainEnd (fixCommonPatterns s).1 trace,
        (fixCommonPatterns s).2 ++ trace.map FixResult.message⟩ ∧
      (repairStuck (chainEnd (fixCommonPatterns s).1 trace) ∨ trace.length = 10) := by
  obtain ⟨trace, hchain, hlen, heq, hstop⟩ :=
    fixStructuralErrorsGo_trace 10 (fixCommonPatterns s).1 (fixCommonPatterns s).2
  refine ⟨trace, hchain, hlen, ?_, hstop⟩
  rw [repair]
  simp only [fixStructuralErrors] at heq ⊢
  rw [heq]

theorem infixData_middle (a b c : String) : b.data <:+: (a ++ b ++ c).data :=
  ⟨a.data, c.data, by simp [String.data_append]⟩

theorem gpae_num_filter (ctx : ArrayContext) (q : ℚ) (key : Option Seg) :
    ∃ e ∈ generatePropertyInArrayExamples ctx (.num q) key,
      e.title = "🔍 Filter by Property" ∧
      ((" > " ++ (if q = 0 then "10" else jsNumToString q)).data <:+: e.code.data) := by
  let A := if (generateAccessPath ctx.arrayPath).dot = "" then "data"
    else (generateAccessPath ctx.arrayPath).dot
  let pap := propertyAccessPath ctx.propertyPath
  let PN := if keyTruthy key then
      (match key with | some s => segToString s | none => "undefined")
    else
      (match ctx.propertyPath.getLast? with | some s => segToString s | none => "undefined")
  let F := "item" ++ pap
  let ev := if q = 0 then "10" else jsNumToString q
  refine ⟨⟨"🔍 Filter by Property",
      "const filtered = " ++ A ++ ".filter(item => " ++ F ++ " > " ++ ev ++ ");",
      "Filter items where " ++ PN ++ " > " ++ ev⟩, ?_, rfl, ?_⟩
  · exact List.mem_append_left _ (List.mem_append_left _ (List.mem_append_left _
      (List.mem_cons_of_mem _ (List.mem_cons_of_mem _ (List.mem_cons_self _ _)))))
  · show (" > " ++ ev).data <:+:
      ("const filtered = " ++ A ++ ".filter(item => " ++ F ++ " > " ++ ev ++ ");").data
    have hc : "const filtered = " ++ A ++ ".filter(item => " ++ F ++ " > " ++ ev ++ ");" =
        ("const filtered = " ++ A ++ ".filter(item => " ++ F) ++ (" > " ++ ev) ++ ");" := by
      simp only [String.append_assoc]
    rw [hc]
    exact infixData_middle _ _ _

theorem gpae_num_reduce (ctx : ArrayContext) (q : ℚ) (key : Option Seg) :
    ∃ e ∈ generatePropertyInArrayExamples ctx (.num q) key,
      e.title = "📊 Sum/Aggregate" ∧ (("reduce").data <:+: e.code.data) := by
  let A := if (generateAccessPath ctx.arrayPath).dot = "" then "data"
    else (generateAccessPath ctx.arrayPath).dot
  let pap := propertyAccessPath ctx.propertyPath
  let PN := if keyTruthy key then
      (match key with | some s => segToString s | none => "undefined")
    else
      (match ctx.propertyPath.getLast? with | some s => segToString s | none => "undefined")
  let F := "item" ++ pap
  refine ⟨⟨"📊 Sum/Aggregate",
      "const total = " ++ A ++ ".reduce((sum, item) => sum + " ++ F ++ ", 0);",
      "Calculate total of all " ++ PN ++ " values"⟩, ?_, rfl, ?_⟩
  · refine List.mem_append_left _ (List.mem_append_left _ (List.mem_append_right _ ?_))
    exact List.mem_cons_self _ _
  · show ("reduce").data <:+:
      ("const total = " ++ A ++ ".reduce((sum, item) => sum + " ++ F ++ ", 0);").data
    have hc : "const total = " ++ A ++ ".reduce((sum, item) => sum + " ++ F ++ ", 0);" =
        ("const total = " ++ A ++ ".") ++ "reduce" ++ ("((sum, item) => sum + " ++ (F ++ ", 0);")) := by
      rw [show (".reduce((sum, item) => sum + " : String) =
        ("." ++ ("reduce" ++ "((sum, item) => sum + ")) from rfl]
      simp only [String.append_assoc]
    rw [hc]
    exact infixData_middle _ _ _

/-- C8 (counterexample): claim C8 is false as stated — when the selected
numeric value is `0` (falsy in JavaScript), `this.currentValue || 10` makes
the filter example use the fallback literal `10` instead of referencing the
selected value: on `{"users": [{"age": 0}, {"age": 25}]}` with path
`["users", 0, "age"]`, the filter example reads `item.age > 10` and no filter
entry references `0`. -/
theorem C8_zero_value_counterexample :
    (∃ e ∈ generateCode [Seg.key "users", Seg.idx 0, Seg.key "age"] (.num 0)
        (some (.key "age"))
        (some (JsonVal.obj
          [("users", .arr [.obj [("age", .num 0)], .obj [("age", .num 25)]])])),
      e.title = "🔍 Filter by Property" ∧
      e.code = "const filtered = data.users.filter(item => item.age > 10);") ∧
    (∀ e ∈ generateCode [Seg.key "users", Seg.idx 0, Seg.key "age"] (.num 0)
        (some (.key "age"))
        (some (JsonVal.obj
          [("users", .arr [.obj [("age", .num 0)], .obj [("age", .num 25)]])])),
      e.title = "🔍 Filter by Property" →
      ¬ (("> 0").data <:+: e.code.data)) := by
  constructor
  · decide
  · decide

/-- C8 (amended): claim C8, amended — for every selection whose path passes
through an array with at least one segment remaining after the index and
whose selected value is numeric, the Code Helper output includes a filter
example with a `>` comparator referencing the selected numeric value *when it
is nonzero* (when it is `0`, the JavaScript falsy fallback literal `10`
appears instead), and a sum/aggregate example using `reduce`. -/
theorem C8_array_context_examples_amended
    (data : JsonVal) (path : List Seg) (q : ℚ) (key : Option Seg)
    (ctx : ArrayContext)
    (hpath : ¬ path = [])
    (htruthy : jsTruthy data = true)
    (hctx : detectArrayContext data path = some ctx)
    (hprop : ctx.propertyPath.length > 0) :
    (∃ e ∈ generateCode path (.num q) key (some data),
      e.title = "🔍 Filter by Property" ∧
      ((" > " ++ (if q = 0 then "10" else jsNumToString q)).data <:+: e.code.data)) ∧
    (∃ e ∈ generateCode path (.num q) key (some data),
      e.title = "📊 Sum/Aggregate" ∧ (("reduce").data <:+: e.code.data)) := by
  have hgen : generateCode path (.num q) key (some data) =
      generatePropertyInArrayExamples ctx (.num q) key := by
    rw [generateCode, if_neg hpath]
    simp only [htruthy, if_true, hctx]
    rw [if_pos hprop]
  rw [hgen]
  exact ⟨gpae_num_filter ctx q key, gpae_num_reduce ctx q key⟩

/-- Witness for the amended C8 at `{"users": [{"age": 30}, {"age": 25}]}`,
path `["users", 0, "age"]`, selected value 30. -/
theorem C8_array_context_examples_amended_witness :
    (∃ e ∈ generateCode [Seg.key "users", Seg.idx 0, Seg.key "age"] (.num 30)
        (some (.key "age"))
        (some (JsonVal.obj
          [("users", .arr [.obj [("age", .num 30)], .obj [("age", .num 25)]])])),
      e.title = "🔍 Filter by Property" ∧
      ((" > " ++ (if (30 : ℚ) = 0 then "10" else jsNumToString 30)).data <:+: e.code.data)) ∧
    (∃ e ∈ generateCode [Seg.key "users", Seg.idx 0, Seg.key "age"] (.num 30)
        (some (.key "age"))
        (some (JsonVal.obj
          [("users", .arr [.obj [("age", .num 30)], .obj [("age", .num 25)]])])),
      e.title = "📊 Sum/Aggregate" ∧ (("reduce").data <:+: e.code.data)) :=
  C8_array_context_examples_amended
    (JsonVal.obj [("users", .arr [.obj [("age", .num 30)], .obj [("age", .num 25)]])])
    [Seg.key "users", Seg.idx 0, Seg.key "age"] 30 (some (.key "age"))
    { isInArray := true
      arrayPath := [Seg.key "users"]
      propertyPath := [Seg.key "age"]
      arrayData := [.obj [("age", .num 30)], .obj [("age", .num 25)]]
      itemExample := some (.obj [("age", .num 30)]) }
    (by decide) (by decide) (by decide) (by decide)

end DevViewer
